import Mathlib

/-!
# MFEM backend kernels and the Volta miniapp: a shallow embedding

* Part I embeds `rMassMultAdd` (backends/kernels/kernels/mass/multadd.cpp),
  the dimension dispatch of the mass multiply-add kernels, together with the
  launch parameters it computes.
* Part II embeds the transfer primitives declared in
  backends/raja/general/rmemcpy.hpp.
* Part III embeds the class `VoltaSolver` of
  miniapps/electromagnetics/volta_solver.cpp.

The theorems follow the definitions.

# Part I: the mass multiply-add dispatch

Machine `int`s are mathematical integers reduced to the signed 32-bit range
by `wrapInt32` wherever the source performs arithmetic on them.  Memory is a
map from buffer identifiers (the pointers of the source) to buffer contents.
-/

namespace Kernels

/-! ## Build configuration -/

/-- The three build-time execution strategies of the kernels backend. -/
inductive Strategy where
  | sequential
  | lambdaParallel
  | device
  deriving DecidableEq, Repr

/-- Whether the preprocessor symbol `__LAMBDA__` is defined in the build:
it is defined by the parallel-lambda build only. -/
def Strategy.definesLAMBDA : Strategy → Bool
  | .lambdaParallel => true
  | .sequential => false
  | .device => false

/-! ## Machine integers -/

/-- Reduction of an integer to the range of a signed 32-bit `int`
(two's-complement wrap-around). -/
def wrapInt32 (v : Int) : Int :=
  (v + 2 ^ 31) % 2 ^ 32 - 2 ^ 31

/-! ## Memory, kernels and launches -/

/-- A pointer of the source: the identifier of a buffer. -/
abbrev Ptr := Nat

/-- Memory: the contents of every buffer. -/
abbrev Mem (α : Type) := Ptr → List α

/-- The argument list shared by `rMassMultAdd2D` and `rMassMultAdd3D`
(multadd.cpp lines 19-27): three `const int`, six `const double*`, and the
output `double*`, in the order of the declaration. -/
structure KernelArgs where
  NUM_DOFS_1D : Int
  NUM_QUAD_1D : Int
  numElements : Int
  dofToQuad : Ptr
  dofToQuadD : Ptr
  quadToDof : Ptr
  quadToDofD : Ptr
  op : Ptr
  x : Ptr
  y : Ptr
  deriving DecidableEq, Repr

/-- The launch parameters `grid` and `blck` handed to `call0`. -/
structure LaunchConfig where
  grid : Int
  blck : Int
  deriving DecidableEq, Repr

/-- A kernel (`rMassMultAdd2D`, `rMassMultAdd3D`): multadd.cpp only declares
them, so they are parameters of the embedding.  A kernel is run with the
launch parameters of `call0` (none in the `__LAMBDA__` build) on its
argument list and transforms memory. -/
abbrev Kernel (α : Type) := Option LaunchConfig → KernelArgs → Mem α → Mem α

/-- The two kernels `rMassMultAdd` can select. -/
inductive KernelName where
  | rMassMultAdd2D
  | rMassMultAdd3D
  deriving DecidableEq, Repr

/-- One kernel invocation, as recorded in the call log. -/
structure Launch where
  name : KernelName
  launch : Option LaunchConfig
  args : KernelArgs
  deriving DecidableEq, Repr

/-- Program state: memory and the log of kernel invocations so far. -/
structure State (α : Type) where
  mem : Mem α
  calls : List Launch

/-- How a call ends: it returns to the caller with a state, or the process
is aborted by a failed `assert`, in the state reached at the assertion. -/
inductive Outcome (σ : Type) where
  | returned (s : σ)
  | assertionFailure (s : σ)

/-- The state in which the call ended, by return or by abort. -/
def Outcome.state {σ : Type} : Outcome σ → σ
  | .returned s => s
  | .assertionFailure s => s

/-- Whether the call was aborted instead of returning. -/
def Outcome.aborted {σ : Type} : Outcome σ → Bool
  | .returned _ => false
  | .assertionFailure _ => true

/-- The final memory of a call that returned. -/
def Outcome.mem {α : Type} : Outcome (State α) → Option (Mem α)
  | .returned s => some s.mem
  | .assertionFailure _ => none

/-- The kernel invocations logged by a call that returned. -/
def Outcome.calls {α : Type} : Outcome (State α) → Option (List Launch)
  | .returned s => some s.calls
  | .assertionFailure _ => none

/-- Modelled from the spec: the macro `call0(name,id,grid,blck,args...)`,
defined in kernels.hpp and not in multadd.cpp.  It invokes the kernel `name`
once on `args...`, with the launch parameters `grid`, `blck` when the build
has them ("device kernel launch over one thread-block per group of
elements"; for the other builds "no grid/block computation is needed").  The
`id` token is not declared in `rMassMultAdd`, so the macro cannot use it and
it is dropped here. -/
def call0 {α : Type} (name : KernelName) (k : Kernel α)
    (launch : Option LaunchConfig) (args : KernelArgs) (s : State α) : State α :=
  { mem := k launch args s.mem
    calls := s.calls ++ [{ name := name, launch := launch, args := args }] }

/-- Lines 44-47 of multadd.cpp: unless `__LAMBDA__` is defined,
`blck = 256` and `grid = (numElements+blck-1)/blck` in `int` arithmetic
(wrapping sum, truncating division). -/
def launchConfig (strat : Strategy) (numElements : Int) : Option LaunchConfig :=
  if strat.definesLAMBDA then none
  else
    let blck : Int := 256
    let grid : Int := Int.tdiv (wrapInt32 (wrapInt32 (numElements + blck) - 1)) blck
    some { grid := grid, blck := blck }

/-- The function `rMassMultAdd` of multadd.cpp (lines 31-58).  `dbg` and
`pop` are tracing macros without effect on the program state.
`assert(false)` is the assertion of the C library: it aborts the process
unless the build defines the preprocessor symbol `NDEBUG`, which compiles
the assertion out, so that line 48 does nothing.  `NDEBUG` tells whether the
build defines the symbol. -/
def rMassMultAdd {α : Type} (strat : Strategy) (NDEBUG : Bool) (k2D k3D : Kernel α)
    (DIM NUM_DOFS_1D NUM_QUAD_1D numElements : Int)
    (dofToQuad dofToQuadD quadToDof quadToDofD op x y : Ptr)
    (s : State α) : Outcome (State α) :=
  let launch := launchConfig strat numElements
  if DIM = 1 ∧ NDEBUG = false then .assertionFailure s
  else
    let args : KernelArgs :=
      { NUM_DOFS_1D := NUM_DOFS_1D, NUM_QUAD_1D := NUM_QUAD_1D,
        numElements := numElements, dofToQuad := dofToQuad,
        dofToQuadD := dofToQuadD, quadToDof := quadToDof,
        quadToDofD := quadToDofD, op := op, x := x, y := y }
    let s1 := if DIM = 2 then call0 .rMassMultAdd2D k2D launch args s else s
    let s2 := if DIM = 3 then call0 .rMassMultAdd3D k3D launch args s1 else s1
    .returned s2

/-- Modelled from the spec: the kernels are only declared in multadd.cpp; the
spec gives their frame, "writes only to the output buffer ... never mutates
input buffers or operator tables", which matches the `const double*`
parameters of the declarations.  A kernel has this frame when every buffer
other than its argument `y` is left as it was. -/
def Kernel.WritesOnlyY {α : Type} (k : Kernel α) : Prop :=
  ∀ (launch : Option LaunchConfig) (args : KernelArgs) (m : Mem α) (p : Ptr),
    p ≠ args.y → k launch args m p = m p

/-- Modelled from the spec: the bodies of the kernels and the loop macros of
kernels.hpp are defined outside multadd.cpp.  The spec describes one body
per kernel, the work on one element, "parameterized by an injected
for-each-element executor (sequential iterate, parallel iterate, device grid
launch)".  `body e` is the work on element `e` and `sched k` is the order in
which `k` parallel lanes happen to run.
* sequential: the elements `0, 1, ..., numElements-1` in this order;
* parallel lambda: the same elements in the order of the schedule;
* device: `grid * blck` threads in the order of the schedule, thread `t`
  working on element `t` when `t < numElements` and idle otherwise. -/
def forEachElement {α : Type} (strat : Strategy) (sched : Nat → List Nat)
    (launch : Option LaunchConfig) (numElements : Int)
    (body : Nat → Mem α → Mem α) (m : Mem α) : Mem α :=
  match strat with
  | .sequential => (List.range numElements.toNat).foldl (fun m e => body e m) m
  | .lambdaParallel => (sched numElements.toNat).foldl (fun m e => body e m) m
  | .device =>
    match launch with
    | none => m
    | some lc =>
      (sched (lc.grid.toNat * lc.blck.toNat)).foldl
        (fun m (t : Nat) => if (t : Int) < numElements then body t m else m) m

/-- Modelled from the spec: a kernel made of a per-element body run by the
executor of the build. -/
def elementKernel {α : Type} (strat : Strategy) (sched : Nat → List Nat)
    (body : KernelArgs → Nat → Mem α → Mem α) : Kernel α :=
  fun launch args m => forEachElement strat sched launch args.numElements (body args) m

/-- A sample per-element body for concrete evaluation: on element `e` it adds
`op[e] * x[e]` to `y[e]`. -/
def sampleBody : KernelArgs → Nat → Mem Int → Mem Int := fun args e m p =>
  if p = args.y then
    (m args.y).set e
      ((m args.y).getD e 0 + (m args.op).getD e 0 * (m args.x).getD e 0)
  else m p

/-- A sample schedule: the lanes run in descending order. -/
def sampleSched : Nat → List Nat := fun k => (List.range k).reverse

/-- A sample kernel for concrete evaluation: it adds, entry by entry, the
product of `op` and `x` to `y`. -/
def sampleKernel : Kernel Int := fun _ args m p =>
  if p = args.y then
    List.zipWith (fun a b => a + b) (m args.y)
      (List.zipWith (fun a b => a * b) (m args.op) (m args.x))
  else m p

/-- A sample memory: buffer 5 is `op`, buffer 6 is `x`, buffer 7 is `y`. -/
def sampleMem : Mem Int := fun p =>
  if p = 5 then [2, 3] else if p = 6 then [10, 20] else if p = 7 then [1, 1] else []

/-- A sample initial state: the sample memory and an empty call log. -/
def sampleState : State Int := { mem := sampleMem, calls := [] }

end Kernels

/-!
# Part II: the transfer primitives (backends/raja/general/rmemcpy.hpp)
-/

namespace Raja

/-- A byte of memory: one of the 256 bit patterns. -/
abbrev Byte := Fin 256

/-- A buffer in host memory: its bytes, as many as were allocated. -/
structure HostBuffer where
  bytes : List Byte
  deriving DecidableEq, Repr

/-- A buffer in device memory: its bytes, as many as were allocated. -/
structure DeviceBuffer where
  bytes : List Byte
  deriving DecidableEq, Repr

/-- Modelled from the spec: rmemcpy.hpp only declares the four transfer
functions.  The spec gives their contract: "copy `byteCount` bytes from
source to destination", where "byteCount must not exceed the allocated size
of either buffer".  The result is the destination after the copy, and there
is none when the byte count exceeds a buffer. -/
def copyBytes (dst src : List Byte) (bytes : Nat) : Option (List Byte) :=
  if bytes ≤ dst.length ∧ bytes ≤ src.length then
    some (src.take bytes ++ dst.drop bytes)
  else none

/-- Modelled from the spec: `rmemcpy::rHtoH(dst, src, bytes, async)`, host to
host.  The flag `async` only allows the call to return before the copy is
complete; the result is the destination once the copy is complete. -/
def rmemcpy.rHtoH (dst : HostBuffer) (src : HostBuffer) (bytes : Nat)
    (_async : Bool) : Option HostBuffer :=
  (copyBytes dst.bytes src.bytes bytes).map HostBuffer.mk

/-- Modelled from the spec: `rmemcpy::rHtoD(dst, src, bytes, async)`, host to
device; the destination once the copy is complete. -/
def rmemcpy.rHtoD (dst : DeviceBuffer) (src : HostBuffer) (bytes : Nat)
    (_async : Bool) : Option DeviceBuffer :=
  (copyBytes dst.bytes src.bytes bytes).map DeviceBuffer.mk

/-- Modelled from the spec: `rmemcpy::rDtoH(dst, src, bytes, async)`, device
to host; the destination once the copy is complete. -/
def rmemcpy.rDtoH (dst : HostBuffer) (src : DeviceBuffer) (bytes : Nat)
    (_async : Bool) : Option HostBuffer :=
  (copyBytes dst.bytes src.bytes bytes).map HostBuffer.mk

/-- Modelled from the spec: `rmemcpy::rDtoD(dst, src, bytes, async)`, device
to device; the destination once the copy is complete. -/
def rmemcpy.rDtoD (dst : DeviceBuffer) (src : DeviceBuffer) (bytes : Nat)
    (_async : Bool) : Option DeviceBuffer :=
  (copyBytes dst.bytes src.bytes bytes).map DeviceBuffer.mk

end Raja

/-!
# Part III: the Volta solver (miniapps/electromagnetics/volta_solver.cpp)

The embedding keeps what the member functions do to the pointers and index
arrays of the solver object and to the free store: every `new`, every
`delete`, every dereference of a member pointer and every array access of the
source is in the model; the floating point fields the pointers refer to are
not.
-/

namespace Electromagnetics

/-- A pointer member of the solver: `none` is `NULL`, `some a` is the address
`a`. -/
abbrev ObjPtr := Option Nat

/-- Undefined behaviour the model detects: a dereference of `NULL`, or an
array access outside the array. -/
inductive Fault where
  | nullDeref
  | outOfBounds
  deriving DecidableEq, Repr

/-- The free store.  `next` is the address the next `new` returns,
`allocated` lists every address `new` has returned, `deleted` every address
`delete` has released (oldest first), and `owned` pairs an integrator with
the form it was added to. -/
structure Heap where
  next : Nat
  allocated : List Nat
  deleted : List Nat
  owned : List (Nat × Nat)
  deriving DecidableEq, Repr

/-- The expression `new T(...)`: a fresh address. -/
def Heap.new (h : Heap) : Nat × Heap :=
  (h.next, { h with next := h.next + 1, allocated := h.allocated ++ [h.next] })

/-- The statement `form->AddDomainIntegrator(new I(...))` (or
`AddBoundaryIntegrator`): the integrator is allocated and handed to the
form, which owns it from then on. -/
def Heap.addIntegrator (h : Heap) (form : Nat) : Heap :=
  let (i, h1) := h.new
  { h1 with owned := h1.owned ++ [(i, form)] }

/-- The statement `delete p`: nothing for `NULL`; otherwise the object is
released, and with a form the integrators it owns (the destructor of the
library's bilinear forms deletes the integrators added to the form). -/
def Heap.delete (h : Heap) (p : ObjPtr) : Heap :=
  match p with
  | none => h
  | some a =>
    { h with deleted := h.deleted ++ [a]
        ++ (h.owned.filter (fun io => io.2 = a)).map (fun io => io.1) }

/-- The objects allocated and never released. -/
def Heap.leaked (h : Heap) : List Nat :=
  h.allocated.filter (fun a => a ∉ h.deleted)

/-- A dereference `*p` or `p->...` of a pointer. -/
def deref (p : ObjPtr) : Except Fault Unit :=
  match p with
  | none => .error .nullDeref
  | some _ => .ok ()

/-- The statement `if (c) { body }` without an `else`. -/
def ifThen (c : Bool) (body : Except Fault Unit) : Except Fault Unit :=
  if c then body else .ok ()

/-- The keys of the map `socks_`, in the order of their names as strings,
which is the iteration order of `std::map<string,socketstream*>`. -/
inductive SockKey where
  | D
  | E
  | P
  | Phi
  | Rho
  | Sigma
  deriving DecidableEq, Repr

/-- The string of a key. -/
def SockKey.name : SockKey → String
  | .D => "D"
  | .E => "E"
  | .P => "P"
  | .Phi => "Phi"
  | .Rho => "Rho"
  | .Sigma => "Sigma"

/-- The position of a key in the order of the map. -/
def SockKey.rank : SockKey → Nat
  | .D => 0
  | .E => 1
  | .P => 2
  | .Phi => 3
  | .Rho => 4
  | .Sigma => 5

/-- The assignment `socks[k] = v` on a `std::map`: the entry of `k` is
overwritten when there is one and inserted in key order otherwise. -/
def mapAssign (k : SockKey) (v : ObjPtr) :
    List (SockKey × ObjPtr) → List (SockKey × ObjPtr)
  | [] => [(k, v)]
  | (k', v') :: rest =>
    if k = k' then (k, v) :: rest
    else if k.rank < k'.rank then (k, v) :: (k', v') :: rest
    else (k', v') :: mapAssign k v rest

/-- The value of the entry of `k`, when there is one. -/
def mapFind (k : SockKey) : List (SockKey × ObjPtr) → Option ObjPtr
  | [] => none
  | (k', v') :: rest => if k = k' then some v' else mapFind k rest

/-- The expression `socks[k]` read on a `std::map`: when `k` has no entry, one
with the value `NULL` is inserted; the result is the map and the value of the
entry. -/
def mapIndex (k : SockKey) (m : List (SockKey × ObjPtr)) :
    List (SockKey × ObjPtr) × ObjPtr :=
  match mapFind k m with
  | some v => (m, v)
  | none => (mapAssign k none m, none)

/-- `Array<int>::SetSize(n)`: the first entries are kept, the array is cut or
extended to `n` entries.  New entries are unspecified in the library; every
use in the solver overwrites them before they are read, and the model fills
them with 0. -/
def arraySetSize (n : Nat) (a : List Int) : List Int :=
  a.take n ++ List.replicate (n - a.length) 0

/-- The assignment `a[i] = v` with an `int` index: outside `0 .. size-1` it
is undefined behaviour. -/
def arrayAssign (a : List Int) (i : Int) (v : Int) : Except Fault (List Int) :=
  if 0 ≤ i ∧ i < a.length then .ok (a.set i.toNat v) else .error .outOfBounds

/-- The read `v[i]` of an array or vector of `size` entries. -/
def checkIndex (size : Nat) (i : Nat) : Except Fault Unit :=
  if i < size then .ok () else .error .outOfBounds

/-- The objects of the caller the solver refers to without owning them, as
they are when a member function runs: the rank and size of the MPI
communicator of the mesh, the largest boundary attribute of the mesh
(`bdr_attributes.Max()`), the Dirichlet and Neumann attribute lists, the
sizes of the two value vectors, and the library routine
`GetEssentialTrueDofs` of the H1 space. -/
structure Caller where
  rank : Int
  size : Int
  bdrAttrMax : Nat
  dbcs : List Int
  dbcvSize : Nat
  nbcs : List Int
  nbcvSize : Nat
  getEssentialTrueDofs : List Int → List Int

/-- The data members of `VoltaSolver`.  The references taken by the
constructor are stored as addresses; the function pointers `phi_bc_`,
`rho_src_`, `p_src_` are `NULL` or the address of a function. -/
structure VoltaSolver where
  myid_ : Int
  num_procs_ : Int
  order_ : Int
  pmesh_ : ObjPtr
  dbcs_ : ObjPtr
  dbcv_ : ObjPtr
  nbcs_ : ObjPtr
  nbcv_ : ObjPtr
  visit_dc_ : ObjPtr
  H1FESpace_ : ObjPtr
  HCurlFESpace_ : ObjPtr
  HDivFESpace_ : ObjPtr
  divEpsGrad_ : ObjPtr
  h1Mass_ : ObjPtr
  h1SurfMass_ : ObjPtr
  hDivMass_ : ObjPtr
  hCurlHDivEps_ : ObjPtr
  hCurlHDiv_ : ObjPtr
  weakDiv_ : ObjPtr
  grad_ : ObjPtr
  phi_ : ObjPtr
  rho_ : ObjPtr
  rhod_ : ObjPtr
  sigma_ : ObjPtr
  e_ : ObjPtr
  d_ : ObjPtr
  p_ : ObjPtr
  epsCoef_ : ObjPtr
  phiBCCoef_ : ObjPtr
  rhoCoef_ : ObjPtr
  pCoef_ : ObjPtr
  phi_bc_ : ObjPtr
  rho_src_ : ObjPtr
  p_src_ : ObjPtr
  socks_ : List (SockKey × ObjPtr)
  ess_bdr_ : List Int
  ess_bdr_tdofs_ : List Int
  deriving DecidableEq, Repr

/-- The loop of lines 80-83, `ess_bdr_[(*dbcs_)[i]-1] = 1` for every entry of
the list.  The subtraction leaves the `int` range only for the least `int`,
whose index is out of bounds with or without wrap-around. -/
def markAttributes : List Int → List Int → Except Fault (List Int)
  | [], marker => .ok marker
  | a :: rest, marker =>
    match arrayAssign marker (a - 1) 1 with
    | .error f => .error f
    | .ok marker1 => markAttributes rest marker1

/-- The member initialiser list of the constructor (lines 31-64). -/
def VoltaSolver.initial (pmesh : Nat) (order : Int) (dbcs dbcv nbcs nbcv epsCoef : Nat)
    (phi_bc rho_src p_src : ObjPtr) : VoltaSolver :=
  { myid_ := 0, num_procs_ := 1, order_ := order,
    pmesh_ := some pmesh, dbcs_ := some dbcs, dbcv_ := some dbcv,
    nbcs_ := some nbcs, nbcv_ := some nbcv, visit_dc_ := none,
    H1FESpace_ := none, HCurlFESpace_ := none, HDivFESpace_ := none,
    divEpsGrad_ := none, h1Mass_ := none, h1SurfMass_ := none, hDivMass_ := none,
    hCurlHDivEps_ := none, hCurlHDiv_ := none, weakDiv_ := none, grad_ := none,
    phi_ := none, rho_ := none, rhod_ := none, sigma_ := none, e_ := none,
    d_ := none, p_ := none, epsCoef_ := some epsCoef, phiBCCoef_ := none,
    rhoCoef_ := none, pCoef_ := none, phi_bc_ := phi_bc, rho_src_ := rho_src,
    p_src_ := p_src, socks_ := [], ess_bdr_ := [], ess_bdr_tdofs_ := [] }

/-- Lines 24-75 of the constructor: the member initialisers, the MPI rank
and size, and the three finite element spaces. -/
def VoltaSolver.constructSpaces (pmesh : Nat) (order : Int)
    (dbcs dbcv nbcs nbcv epsCoef : Nat) (phi_bc rho_src p_src : ObjPtr)
    (env : Caller) (h : Heap) : VoltaSolver × Heap :=
  let s := VoltaSolver.initial pmesh order dbcs dbcv nbcs nbcv epsCoef phi_bc rho_src p_src
  -- lines 67-68
  let s := { s with num_procs_ := env.size, myid_ := env.rank }
  -- lines 73-75
  let (a, h) := h.new
  let s := { s with H1FESpace_ := some a }
  let (a, h) := h.new
  let s := { s with HCurlFESpace_ := some a }
  let (a, h) := h.new
  let s := { s with HDivFESpace_ := some a }
  (s, h)

/-- Lines 77-83 of the constructor: `ess_bdr_` gets the size
`bdr_attributes.Max()`, is zeroed, and is marked at every Dirichlet
attribute. -/
def VoltaSolver.selectDirichlet (env : Caller) (s : VoltaSolver) :
    Except Fault VoltaSolver :=
  match markAttributes env.dbcs
      (List.replicate (arraySetSize env.bdrAttrMax s.ess_bdr_).length 0) with
  | .error f => .error f
  | .ok marker => .ok { s with ess_bdr_ := marker }

/-- Lines 85-123 of the constructor: the coefficients, the bilinear forms
with their integrators, the gradient operator and the four grid functions of
every solver. -/
def VoltaSolver.constructMembers (sh : VoltaSolver × Heap) : VoltaSolver × Heap :=
  let s := sh.1
  let h := sh.2
  -- lines 88-91
  let (s, h) :=
    if s.phi_bc_.isSome then
      let (a, h) := h.new
      ({ s with phiBCCoef_ := some a }, h)
    else (s, h)
  -- lines 94-97
  let (s, h) :=
    if s.rho_src_.isSome then
      let (a, h) := h.new
      ({ s with rhoCoef_ := some a }, h)
    else (s, h)
  -- lines 100-104
  let (s, h) :=
    if s.p_src_.isSome then
      let (a, h) := h.new
      ({ s with pCoef_ := some a }, h)
    else (s, h)
  -- lines 107-114
  let (a, h) := h.new
  let s := { s with divEpsGrad_ := some a }
  let h := h.addIntegrator a
  let (a, h) := h.new
  let s := { s with hDivMass_ := some a }
  let h := h.addIntegrator a
  let (a, h) := h.new
  let s := { s with hCurlHDivEps_ := some a }
  let h := h.addIntegrator a
  -- line 117
  let (a, h) := h.new
  let s := { s with grad_ := some a }
  -- lines 120-123
  let (a, h) := h.new
  let s := { s with phi_ := some a }
  let (a, h) := h.new
  let s := { s with rhod_ := some a }
  let (a, h) := h.new
  let s := { s with d_ := some a }
  let (a, h) := h.new
  let s := { s with e_ := some a }
  (s, h)

/-- Lines 125-151 of the constructor: the grid functions and forms of the
volume charge density, of the polarization and of the surface charge
density, each under its condition. -/
def VoltaSolver.constructOptional (env : Caller) (sh : VoltaSolver × Heap) :
    VoltaSolver × Heap :=
  let s := sh.1
  let h := sh.2
  -- lines 125-131
  let (s, h) :=
    if s.rho_src_.isSome then
      let (a, h) := h.new
      let s := { s with rho_ := some a }
      let (a, h) := h.new
      let s := { s with h1Mass_ := some a }
      (s, h.addIntegrator a)
    else (s, h)
  -- lines 133-143
  let (s, h) :=
    if s.p_src_.isSome then
      let (a, h) := h.new
      let s := { s with p_ := some a }
      let (a, h) := h.new
      let s := { s with hCurlHDiv_ := some a }
      let h := h.addIntegrator a
      let (a, h) := h.new
      let s := { s with weakDiv_ := some a }
      (s, h.addIntegrator a)
    else (s, h)
  -- lines 145-151
  let (s, h) :=
    if env.nbcs.length > 0 then
      let (a, h) := h.new
      let s := { s with sigma_ := some a }
      let (a, h) := h.new
      let s := { s with h1SurfMass_ := some a }
      (s, h.addIntegrator a)
    else (s, h)
  (s, h)

/-- The constructor `VoltaSolver::VoltaSolver` (lines 24-152), on the free
store `h`. -/
def VoltaSolver.construct (pmesh : Nat) (order : Int)
    (dbcs dbcv nbcs nbcv epsCoef : Nat) (phi_bc rho_src p_src : ObjPtr)
    (env : Caller) (h : Heap) : Except Fault (VoltaSolver × Heap) :=
  let sh := VoltaSolver.constructSpaces pmesh order dbcs dbcv nbcs nbcv epsCoef
    phi_bc rho_src p_src env h
  match VoltaSolver.selectDirichlet env sh.1 with
  | .error f => .error f
  | .ok s => .ok (VoltaSolver.constructOptional env (VoltaSolver.constructMembers (s, sh.2)))

/-- The loop of the destructor over the map (lines 182-186):
`delete mit->second` for every entry, in key order. -/
def deleteSocks : List (SockKey × ObjPtr) → Heap → Heap
  | [], h => h
  | (_, v) :: rest, h => deleteSocks rest (h.delete v)

/-- The destructor `VoltaSolver::~VoltaSolver` (lines 154-187): the free store
after it. -/
def VoltaSolver.destroy (s : VoltaSolver) (h : Heap) : Heap :=
  let h := h.delete s.phiBCCoef_
  let h := h.delete s.rhoCoef_
  let h := h.delete s.pCoef_
  let h := h.delete s.phi_
  let h := h.delete s.rho_
  let h := h.delete s.rhod_
  let h := h.delete s.sigma_
  let h := h.delete s.d_
  let h := h.delete s.e_
  let h := h.delete s.p_
  let h := h.delete s.grad_
  let h := h.delete s.divEpsGrad_
  let h := h.delete s.h1Mass_
  let h := h.delete s.h1SurfMass_
  let h := h.delete s.hDivMass_
  let h := h.delete s.hCurlHDivEps_
  let h := h.delete s.hCurlHDiv_
  let h := h.delete s.weakDiv_
  let h := h.delete s.H1FESpace_
  let h := h.delete s.HCurlFESpace_
  let h := h.delete s.HDivFESpace_
  deleteSocks s.socks_ h

/-- The member function `GetProblemSize` (lines 189-193). -/
def VoltaSolver.GetProblemSize (s : VoltaSolver) : Except Fault Unit :=
  deref s.H1FESpace_

/-- The member function `PrintSizes` (lines 195-207). -/
def VoltaSolver.PrintSizes (s : VoltaSolver) : Except Fault Unit := do
  deref s.H1FESpace_
  deref s.HCurlFESpace_
  deref s.HDivFESpace_

/-- The member function `Assemble` (lines 209-247). -/
def VoltaSolver.Assemble (s : VoltaSolver) : Except Fault VoltaSolver := do
  deref s.divEpsGrad_
  deref s.hDivMass_
  deref s.hCurlHDivEps_
  deref s.grad_
  ifThen s.h1Mass_.isSome (deref s.h1Mass_)
  ifThen s.h1SurfMass_.isSome (deref s.h1SurfMass_)
  ifThen s.hCurlHDiv_.isSome (deref s.hCurlHDiv_)
  ifThen s.weakDiv_.isSome (deref s.weakDiv_)
  pure s

/-- The member function `Update` (lines 249-282). -/
def VoltaSolver.Update (s : VoltaSolver) : Except Fault VoltaSolver := do
  deref s.H1FESpace_
  deref s.HCurlFESpace_
  deref s.HDivFESpace_
  deref s.phi_
  deref s.rhod_
  deref s.d_
  deref s.e_
  ifThen s.rho_.isSome (deref s.rho_)
  ifThen s.sigma_.isSome (deref s.sigma_)
  ifThen s.p_.isSome (deref s.p_)
  deref s.divEpsGrad_
  deref s.hDivMass_
  deref s.hCurlHDivEps_
  ifThen s.h1Mass_.isSome (deref s.h1Mass_)
  ifThen s.h1SurfMass_.isSome (deref s.h1SurfMass_)
  ifThen s.hCurlHDiv_.isSome (deref s.hCurlHDiv_)
  ifThen s.weakDiv_.isSome (deref s.weakDiv_)
  deref s.grad_
  pure s

/-- The loops of lines 306-312 and 336-342 of `Solve`: for the `i`-th
attribute of the list, the value `(*values)[i]` is read, a marker array of
`bdr_attributes.Max()` entries is zeroed, its entry `attribute - 1` is set
to 1, and the grid function `*gf` is projected. -/
def projectPiecewise (bdrAttrMax : Nat) (values : ObjPtr) (valuesSize : Nat)
    (gf : ObjPtr) : Nat → List Int → Except Fault Unit
  | _, [] => .ok ()
  | i, a :: rest => do
    deref values
    checkIndex valuesSize i
    let _ ← arrayAssign (List.replicate bdrAttrMax 0) (a - 1) 1
    deref gf
    projectPiecewise bdrAttrMax values valuesSize gf (i + 1) rest

/-- Lines 295-314 of `Solve`: the Dirichlet values are projected on `*phi_`,
from the coefficient `*phiBCCoef_` when there is one and attribute by
attribute otherwise. -/
def VoltaSolver.applyDirichlet (env : Caller) (s : VoltaSolver) : Except Fault Unit := do
  deref s.dbcs_
  ifThen (decide (env.dbcs.length > 0))
    (if s.phiBCCoef_.isSome then do
      deref s.phi_
      deref s.phiBCCoef_
    else do
      deref s.pmesh_
      projectPiecewise env.bdrAttrMax s.dbcv_ env.dbcvSize s.phi_ 0 env.dbcs)

/-- Lines 316-344 of `Solve`: the volumetric charge density, the polarization
and the surface charge density are added to the right hand side, each when
its grid function is non-null. -/
def VoltaSolver.addSources (env : Caller) (s : VoltaSolver) : Except Fault Unit := do
  -- lines 317-321
  ifThen s.rho_.isSome (do
    deref s.rho_
    deref s.rhoCoef_
    deref s.h1Mass_
    deref s.rhod_)
  -- lines 324-328
  ifThen s.p_.isSome (do
    deref s.p_
    deref s.pCoef_
    deref s.weakDiv_
    deref s.rhod_)
  -- lines 331-344
  ifThen s.sigma_.isSome (do
    deref s.sigma_
    deref s.pmesh_
    deref s.nbcs_
    projectPiecewise env.bdrAttrMax s.nbcv_ env.nbcvSize s.sigma_ 0 env.nbcs
    deref s.h1SurfMass_
    deref s.rhod_)

/-- Lines 346-360 of `Solve`: the new value of `ess_bdr_tdofs_`. -/
def VoltaSolver.essentialTrueDofs (env : Caller) (s : VoltaSolver) :
    Except Fault (List Int) := do
  deref s.dbcs_
  if env.dbcs.length > 0 then do
    deref s.H1FESpace_
    pure (env.getEssentialTrueDofs s.ess_bdr_)
  else if s.myid_ = 0 then
    arrayAssign (arraySetSize 1 s.ess_bdr_tdofs_) 0 0
  else pure s.ess_bdr_tdofs_

/-- Lines 362-419 of `Solve`: the two linear systems are formed and solved by
the library on objects local to the function, and the fields are recovered. -/
def VoltaSolver.solveSystems (s : VoltaSolver) : Except Fault Unit := do
  -- lines 363-383
  deref s.H1FESpace_
  deref s.divEpsGrad_
  deref s.phi_
  deref s.rhod_
  -- line 388
  deref s.grad_
  deref s.phi_
  deref s.e_
  -- lines 393-398
  deref s.HDivFESpace_
  deref s.hCurlHDivEps_
  deref s.e_
  ifThen s.p_.isSome (do
    deref s.hCurlHDiv_
    deref s.p_)
  -- lines 400-414
  deref s.hDivMass_
  deref s.d_

/-- The member function `Solve` (lines 284-419). -/
def VoltaSolver.Solve (env : Caller) (s : VoltaSolver) : Except Fault VoltaSolver := do
  -- lines 290-293
  deref s.phi_
  deref s.rhod_
  s.applyDirichlet env
  s.addSources env
  let tdofs ← s.essentialTrueDofs env
  let s := { s with ess_bdr_tdofs_ := tdofs }
  s.solveSystems
  pure s

/-- The member function `GetErrorEstimates` (lines 421-441). -/
def VoltaSolver.GetErrorEstimates (s : VoltaSolver) : Except Fault Unit := do
  deref s.epsCoef_
  deref s.pmesh_
  deref s.phi_

/-- The member function `RegisterVisItFields` (lines 443-454), given the
address of the data collection. -/
def VoltaSolver.RegisterVisItFields (visit_dc : Nat) (s : VoltaSolver) :
    Except Fault VoltaSolver :=
  .ok { s with visit_dc_ := some visit_dc }

/-- The member function `WriteVisItFields` (lines 456-470). -/
def VoltaSolver.WriteVisItFields (s : VoltaSolver) : Except Fault Unit :=
  ifThen s.visit_dc_.isSome (do
    s.GetProblemSize
    deref s.visit_dc_)

/-- The two statements `socks_[k] = new socketstream; socks_[k]->precision(8);`
of `InitializeGLVis`. -/
def openSock (k : SockKey) (sh : VoltaSolver × Heap) : Except Fault (VoltaSolver × Heap) :=
  let (a, h) := sh.2.new
  let s := { sh.1 with socks_ := mapAssign k (some a) sh.1.socks_ }
  let (m, v) := mapIndex k s.socks_
  match deref v with
  | .error f => .error f
  | .ok _ => .ok ({ s with socks_ := m }, h)

/-- The member function `InitializeGLVis` (lines 472-501). -/
def VoltaSolver.InitializeGLVis (sh : VoltaSolver × Heap) :
    Except Fault (VoltaSolver × Heap) := do
  let sh ← openSock .Phi sh
  let sh ← openSock .D sh
  let sh ← openSock .E sh
  let sh ← if sh.1.rho_.isSome then openSock .Rho sh else pure sh
  let sh ← if sh.1.p_.isSome then openSock .P sh else pure sh
  let sh ← if sh.1.sigma_.isSome then openSock .Sigma sh else pure sh
  pure sh

/-- One call `VisualizeField(*socks_[k], ..., *gf, ...)` of `DisplayToGLVis`. -/
def showField (k : SockKey) (gf : ObjPtr) (s : VoltaSolver) : Except Fault VoltaSolver :=
  let (m, v) := mapIndex k s.socks_
  match deref v with
  | .error f => .error f
  | .ok _ =>
    match deref gf with
    | .error f => .error f
    | .ok _ => .ok { s with socks_ := m }

/-- The member function `DisplayToGLVis` (lines 503-547). -/
def VoltaSolver.DisplayToGLVis (s : VoltaSolver) : Except Fault VoltaSolver := do
  let s ← showField .Phi s.phi_ s
  let s ← showField .D s.d_ s
  let s ← showField .E s.e_ s
  let s ← if s.rho_.isSome then showField .Rho s.rho_ s else pure s
  let s ← if s.p_.isSome then showField .P s.p_ s else pure s
  let s ← if s.sigma_.isSome then showField .Sigma s.sigma_ s else pure s
  pure s

/-- A call of a public member function, with the state of the objects of the
caller at the time of the call where the function reads them. -/
inductive Call where
  | GetProblemSize
  | PrintSizes
  | Assemble
  | Update
  | Solve (env : Caller)
  | GetErrorEstimates
  | RegisterVisItFields (visit_dc : Nat)
  | WriteVisItFields
  | InitializeGLVis
  | DisplayToGLVis

/-- The effect of one call on the solver and the free store. -/
def Call.run (c : Call) (sh : VoltaSolver × Heap) : Except Fault (VoltaSolver × Heap) :=
  match c with
  | .GetProblemSize => do sh.1.GetProblemSize; pure sh
  | .PrintSizes => do sh.1.PrintSizes; pure sh
  | .Assemble => do let s ← sh.1.Assemble; pure (s, sh.2)
  | .Update => do let s ← sh.1.Update; pure (s, sh.2)
  | .Solve env => do let s ← sh.1.Solve env; pure (s, sh.2)
  | .GetErrorEstimates => do sh.1.GetErrorEstimates; pure sh
  | .RegisterVisItFields dc => do let s ← sh.1.RegisterVisItFields dc; pure (s, sh.2)
  | .WriteVisItFields => do sh.1.WriteVisItFields; pure sh
  | .InitializeGLVis => VoltaSolver.InitializeGLVis sh
  | .DisplayToGLVis => do let s ← sh.1.DisplayToGLVis; pure (s, sh.2)

/-- A sequence of calls, one after the other. -/
def runCalls : List Call → VoltaSolver × Heap → Except Fault (VoltaSolver × Heap)
  | [], sh => .ok sh
  | c :: rest, sh =>
    match c.run sh with
    | .error f => .error f
    | .ok sh1 => runCalls rest sh1

/-- A solver in use: construction, then a sequence of calls. -/
def constructAndRun (pmesh : Nat) (order : Int) (dbcs dbcv nbcs nbcv epsCoef : Nat)
    (phi_bc rho_src p_src : ObjPtr) (env : Caller) (calls : List Call) (h : Heap) :
    Except Fault (VoltaSolver × Heap) :=
  match VoltaSolver.construct pmesh order dbcs dbcv nbcs nbcv epsCoef
      phi_bc rho_src p_src env h with
  | .error f => .error f
  | .ok sh => runCalls calls sh

/-- The life of a solver: construction, a sequence of calls, destruction.
The result is the free store at the end. -/
def lifeCycle (pmesh : Nat) (order : Int) (dbcs dbcv nbcs nbcv epsCoef : Nat)
    (phi_bc rho_src p_src : ObjPtr) (env : Caller) (calls : List Call) (h : Heap) :
    Except Fault Heap :=
  match constructAndRun pmesh order dbcs dbcv nbcs nbcv epsCoef
      phi_bc rho_src p_src env calls h with
  | .error f => .error f
  | .ok sh => .ok (sh.1.destroy sh.2)

/-- The members every construction allocates are non-null, and so are the
references to the objects of the caller. -/
def VoltaSolver.coreAllocated (s : VoltaSolver) : Bool :=
  s.pmesh_.isSome && s.dbcs_.isSome && s.dbcv_.isSome && s.nbcs_.isSome
    && s.nbcv_.isSome && s.epsCoef_.isSome
    && s.H1FESpace_.isSome && s.HCurlFESpace_.isSome && s.HDivFESpace_.isSome
    && s.divEpsGrad_.isSome && s.hDivMass_.isSome && s.hCurlHDivEps_.isSome
    && s.grad_.isSome && s.phi_.isSome && s.rhod_.isSome && s.d_.isSome
    && s.e_.isSome

/-- The optional members are allocated in matched groups: `rho_`, `h1Mass_`
and `rhoCoef_` are non-null exactly when a `rho_src` function was given;
`p_`, `hCurlHDiv_`, `weakDiv_` and `pCoef_` exactly when a `p_src` function
was given; `sigma_` and `h1SurfMass_` exactly when the Neumann attribute list
`nbcs` was non-empty. -/
def VoltaSolver.matched (s : VoltaSolver) (rho_src p_src : ObjPtr)
    (nbcs : List Int) : Bool :=
  (s.rho_.isSome == rho_src.isSome) && (s.h1Mass_.isSome == rho_src.isSome)
    && (s.rhoCoef_.isSome == rho_src.isSome)
    && (s.p_.isSome == p_src.isSome) && (s.hCurlHDiv_.isSome == p_src.isSome)
    && (s.weakDiv_.isSome == p_src.isSome) && (s.pCoef_.isSome == p_src.isSome)
    && (s.sigma_.isSome == !nbcs.isEmpty) && (s.h1SurfMass_.isSome == !nbcs.isEmpty)

/-- Whether the call is one of `Assemble`, `Update`, `Solve`. -/
def Call.isAssembleUpdateSolve : Call → Bool
  | .Assemble => true
  | .Update => true
  | .Solve _ => true
  | _ => false

/-- Whether every attribute of the list is one of `1 .. bdrAttrMax` and has a
value in the vector of `valuesSize` values. -/
def attributesInRange (bdrAttrMax : Nat) (valuesSize : Nat) (attrs : List Int) : Bool :=
  attrs.all (fun a => decide (1 ≤ a ∧ a ≤ bdrAttrMax)) && decide (attrs.length ≤ valuesSize)

/-- Whether the attribute lists of the caller fit the mesh and the value
vectors, so that `Solve` makes no array access out of bounds. -/
def Caller.inRange (env : Caller) : Bool :=
  attributesInRange env.bdrAttrMax env.dbcvSize env.dbcs
    && attributesInRange env.bdrAttrMax env.nbcvSize env.nbcs

/-- Whether the call reads the objects of the caller within bounds. -/
def Call.inRange : Call → Bool
  | .Solve env => env.inRange
  | _ => true

/-- A sample caller: rank 0 of 1, boundary attributes up to 4, Dirichlet
attributes 1 and 3, Neumann attribute 2. -/
def sampleCaller : Caller :=
  { rank := 0, size := 1, bdrAttrMax := 4, dbcs := [1, 3], dbcvSize := 2,
    nbcs := [2], nbcvSize := 1, getEssentialTrueDofs := fun marker => marker }

/-- A sample caller without Dirichlet attributes: rank 0 of 1, boundary
attributes up to 4, Neumann attribute 2. -/
def sampleCallerNoDirichlet : Caller :=
  { rank := 0, size := 1, bdrAttrMax := 4, dbcs := [], dbcvSize := 0,
    nbcs := [2], nbcvSize := 1, getEssentialTrueDofs := fun marker => marker }

/-- A sample free store: the caller has used the addresses below 100. -/
def sampleHeap : Heap := { next := 100, allocated := [], deleted := [], owned := [] }

end Electromagnetics

open Kernels Raja Electromagnetics

/-! # Theorems

## The kernel dispatch -/

/-- C1: in every build, with `DIM = 2` the call returns after exactly one
invocation, of `rMassMultAdd2D`, and with `DIM = 3` after exactly one
invocation, of `rMassMultAdd3D`; the kernel gets the ten arguments of the
caller unchanged and in order, and the final memory is what that kernel makes
of the initial memory. -/
theorem rMassMultAdd_dispatch {α : Type} (strat : Strategy) (NDEBUG : Bool)
    (k2D k3D : Kernel α)
    (NUM_DOFS_1D NUM_QUAD_1D numElements : Int)
    (dofToQuad dofToQuadD quadToDof quadToDofD op x y : Ptr) (s : State α) :
    rMassMultAdd strat NDEBUG k2D k3D 2 NUM_DOFS_1D NUM_QUAD_1D numElements
        dofToQuad dofToQuadD quadToDof quadToDofD op x y s
      = .returned
          { mem := k2D (launchConfig strat numElements)
              ⟨NUM_DOFS_1D, NUM_QUAD_1D, numElements, dofToQuad, dofToQuadD,
                quadToDof, quadToDofD, op, x, y⟩ s.mem
            calls := s.calls ++
              [⟨.rMassMultAdd2D, launchConfig strat numElements,
                ⟨NUM_DOFS_1D, NUM_QUAD_1D, numElements, dofToQuad, dofToQuadD,
                  quadToDof, quadToDofD, op, x, y⟩⟩] }
    ∧
    rMassMultAdd strat NDEBUG k2D k3D 3 NUM_DOFS_1D NUM_QUAD_1D numElements
        dofToQuad dofToQuadD quadToDof quadToDofD op x y s
      = .returned
          { mem := k3D (launchConfig strat numElements)
              ⟨NUM_DOFS_1D, NUM_QUAD_1D, numElements, dofToQuad, dofToQuadD,
                quadToDof, quadToDofD, op, x, y⟩ s.mem
            calls := s.calls ++
              [⟨.rMassMultAdd3D, launchConfig strat numElements,
                ⟨NUM_DOFS_1D, NUM_QUAD_1D, numElements, dofToQuad, dofToQuadD,
                  quadToDof, quadToDofD, op, x, y⟩⟩] } := by
  constructor <;> simp [rMassMultAdd, call0]

/-- C2, as stated, fails: in a build that defines `NDEBUG` the assertion of
line 48 is compiled out, and the call with `DIM = 1` returns to the caller
instead of aborting. -/
theorem rMassMultAdd_dim1_returns_under_NDEBUG :
    (rMassMultAdd .device true sampleKernel sampleKernel 1 3 4 10 1 2 3 4 5 6 7
      sampleState).aborted = false := by
  rfl

/-- C2, amended: with `DIM = 1`, in a build with assertions active (`NDEBUG`
not defined) the call ends in the assertion failure, whatever the execution
strategy and the other arguments: it does not return, and it is aborted in
the state in which it was entered, so no kernel has run.  In a build that
defines `NDEBUG` the call returns in the state in which it was entered: no
kernel has run either, and no output is produced. -/
theorem rMassMultAdd_dim1_fails {α : Type} (strat : Strategy) (NDEBUG : Bool)
    (k2D k3D : Kernel α)
    (NUM_DOFS_1D NUM_QUAD_1D numElements : Int)
    (dofToQuad dofToQuadD quadToDof quadToDofD op x y : Ptr) (s : State α) :
    rMassMultAdd strat NDEBUG k2D k3D 1 NUM_DOFS_1D NUM_QUAD_1D numElements
        dofToQuad dofToQuadD quadToDof quadToDofD op x y s
      = if NDEBUG = false then .assertionFailure s else .returned s := by
  cases NDEBUG <;> simp [rMassMultAdd]

/-- Two wrapping steps of `int` arithmetic give the wrap of the exact
result. -/
theorem wrapInt32_sub_one (a : Int) :
    wrapInt32 (wrapInt32 a - 1) = wrapInt32 (a - 1) := by
  unfold wrapInt32
  omega

/-- On the range of `int` the wrap is the identity. -/
theorem wrapInt32_of_range (a : Int) (h0 : -2 ^ 31 ≤ a) (h1 : a < 2 ^ 31) :
    wrapInt32 a = a := by
  unfold wrapInt32
  omega

/-- Above the range of `int`, by less than `2^32`, the wrap subtracts
`2^32`. -/
theorem wrapInt32_of_overflow (a : Int) (h0 : 2 ^ 31 ≤ a) (h1 : a < 2 ^ 31 + 2 ^ 32) :
    wrapInt32 a = a - 2 ^ 32 := by
  unfold wrapInt32
  omega

/-- The launch parameters of a build without `__LAMBDA__`, for an element
count whose sum with 255 fits an `int`. -/
theorem launchConfig_in_range (strat : Strategy) (hs : strat.definesLAMBDA = false)
    (numElements : Int) (h0 : 0 ≤ numElements) (h1 : numElements ≤ 2 ^ 31 - 1 - 255) :
    launchConfig strat numElements = some ⟨(numElements + 255) / 256, 256⟩ := by
  have hw : wrapInt32 (wrapInt32 (numElements + 256) - 1) = numElements + 255 := by
    rw [wrapInt32_sub_one, wrapInt32_of_range] <;> omega
  simp only [launchConfig, hs, hw]
  rw [Int.tdiv_eq_ediv (by omega) (by norm_num)]
  rfl

/-- The launch parameters of a build without `__LAMBDA__`, for an element
count whose sum with 255 exceeds the largest `int`. -/
theorem launchConfig_overflow (strat : Strategy) (hs : strat.definesLAMBDA = false)
    (numElements : Int) (h0 : 2 ^ 31 - 1 - 255 < numElements)
    (h1 : numElements ≤ 2 ^ 31 - 1) :
    launchConfig strat numElements
      = some ⟨-((2 ^ 32 - 255 - numElements) / 256), 256⟩ := by
  have hw : wrapInt32 (wrapInt32 (numElements + 256) - 1)
      = -(2 ^ 32 - 255 - numElements) := by
    rw [wrapInt32_sub_one, wrapInt32_of_overflow] <;> omega
  simp only [launchConfig, hs, hw]
  rw [Int.neg_tdiv, Int.tdiv_eq_ediv (by omega) (by norm_num)]
  rfl

/-- C3: in a build without `__LAMBDA__`, for `0 ≤ numElements ≤ 2^31-1-255`
the launch parameters are the block size 256 and a grid size `grid` that is
the ceiling of `numElements / 256`, the least `g` with `256 * g ≥ numElements`;
they are fixed by `numElements` alone: whatever `DIM` in 2, 3, basis sizes,
kernels and buffers, the one kernel invocation of `rMassMultAdd` carries
exactly these launch parameters. -/
theorem rMassMultAdd_launch_params (strat : Strategy)
    (hs : strat.definesLAMBDA = false) (numElements : Int)
    (h0 : 0 ≤ numElements) (h1 : numElements ≤ 2 ^ 31 - 1 - 255) :
    ∃ grid : Int,
      launchConfig strat numElements = some ⟨grid, 256⟩
      ∧ grid = ⌈(numElements : ℚ) / 256⌉
      ∧ numElements ≤ 256 * grid
      ∧ (∀ g : Int, numElements ≤ 256 * g → grid ≤ g)
      ∧ ∀ (α : Type) (NDEBUG : Bool) (k2D k3D : Kernel α)
          (DIM NUM_DOFS_1D NUM_QUAD_1D : Int)
          (dofToQuad dofToQuadD quadToDof quadToDofD op x y : Ptr) (s : State α),
          DIM = 2 ∨ DIM = 3 →
          (rMassMultAdd strat NDEBUG k2D k3D DIM NUM_DOFS_1D NUM_QUAD_1D numElements
              dofToQuad dofToQuadD quadToDof quadToDofD op x y s).calls
            = some (s.calls ++
                [⟨if DIM = 2 then .rMassMultAdd2D else .rMassMultAdd3D,
                  some ⟨grid, 256⟩,
                  ⟨NUM_DOFS_1D, NUM_QUAD_1D, numElements, dofToQuad, dofToQuadD,
                    quadToDof, quadToDofD, op, x, y⟩⟩]) := by
  refine ⟨(numElements + 255) / 256, launchConfig_in_range strat hs numElements h0 h1,
    ?_, by omega, fun g hg => by omega, ?_⟩
  · symm
    rw [Int.ceil_eq_iff]
    have hq : ((256 : ℤ) : ℚ) = 256 := by norm_num
    constructor
    · rw [lt_div_iff₀ (by norm_num : (0 : ℚ) < 256)]
      have h : ((numElements + 255) / 256 - 1) * 256 < numElements := by omega
      have h2 : (((((numElements + 255) / 256 - 1) * 256 : ℤ)) : ℚ) < (numElements : ℚ) := by
        exact_mod_cast h
      push_cast at h2
      linarith
    · rw [div_le_iff₀ (by norm_num : (0 : ℚ) < 256)]
      have h : numElements ≤ ((numElements + 255) / 256) * 256 := by omega
      have h2 : (numElements : ℚ) ≤ ((((numElements + 255) / 256) * 256 : ℤ) : ℚ) := by
        exact_mod_cast h
      push_cast at h2
      linarith
  · intro α NDEBUG k2D k3D DIM ND NQ dofToQuad dofToQuadD quadToDof quadToDofD op x y s hD
    rcases hD with rfl | rfl <;>
      simp [rMassMultAdd, call0, Outcome.calls,
        launchConfig_in_range strat hs numElements h0 h1]

/-- Witness of C3: the device build with 1000 elements. -/
theorem rMassMultAdd_launch_params_witness :
    ∃ grid : Int,
      launchConfig .device 1000 = some ⟨grid, 256⟩
      ∧ grid = ⌈((1000 : Int) : ℚ) / 256⌉
      ∧ (1000 : Int) ≤ 256 * grid
      ∧ (∀ g : Int, (1000 : Int) ≤ 256 * g → grid ≤ g)
      ∧ ∀ (α : Type) (NDEBUG : Bool) (k2D k3D : Kernel α)
          (DIM NUM_DOFS_1D NUM_QUAD_1D : Int)
          (dofToQuad dofToQuadD quadToDof quadToDofD op x y : Ptr) (s : State α),
          DIM = 2 ∨ DIM = 3 →
          (rMassMultAdd .device NDEBUG k2D k3D DIM NUM_DOFS_1D NUM_QUAD_1D 1000
              dofToQuad dofToQuadD quadToDof quadToDofD op x y s).calls
            = some (s.calls ++
                [⟨if DIM = 2 then .rMassMultAdd2D else .rMassMultAdd3D,
                  some ⟨grid, 256⟩,
                  ⟨NUM_DOFS_1D, NUM_QUAD_1D, 1000, dofToQuad, dofToQuadD,
                    quadToDof, quadToDofD, op, x, y⟩⟩]) :=
  rMassMultAdd_launch_params .device rfl 1000 (by decide) (by decide)

/-- C4, as stated, fails: with `DIM = 0` the device build, assertions active,
returns to the caller instead of aborting. -/
theorem rMassMultAdd_dim0_returns :
    (rMassMultAdd .device false sampleKernel sampleKernel 0 3 4 10 1 2 3 4 5 6 7
      sampleState).aborted = false := by
  rfl

/-- C4, amended: of the dimensions other than 2 and 3 only `DIM = 1` is
fatal, and only in a build with assertions active (`NDEBUG` not defined).  For
every other such `DIM` (0, 4, a negative number), and for `DIM = 1` in a
build that defines `NDEBUG`, the call returns to the caller in the state in
which it was entered: no kernel has run and memory is untouched. -/
theorem rMassMultAdd_unsupported_dim {α : Type} (strat : Strategy) (NDEBUG : Bool)
    (k2D k3D : Kernel α)
    (DIM NUM_DOFS_1D NUM_QUAD_1D numElements : Int)
    (dofToQuad dofToQuadD quadToDof quadToDofD op x y : Ptr) (s : State α)
    (h2 : DIM ≠ 2) (h3 : DIM ≠ 3) :
    rMassMultAdd strat NDEBUG k2D k3D DIM NUM_DOFS_1D NUM_QUAD_1D numElements
        dofToQuad dofToQuadD quadToDof quadToDofD op x y s
      = if DIM = 1 ∧ NDEBUG = false then .assertionFailure s else .returned s := by
  by_cases h1 : DIM = 1 ∧ NDEBUG = false <;> simp [rMassMultAdd, h1, h2, h3]

/-- Witness of the amended C4 at `DIM = 4`, assertions active. -/
theorem rMassMultAdd_unsupported_dim_witness :
    rMassMultAdd .device false sampleKernel sampleKernel 4 3 4 10 1 2 3 4 5 6 7 sampleState
      = if (4 : Int) = 1 ∧ false = false then .assertionFailure sampleState
        else .returned sampleState :=
  rMassMultAdd_unsupported_dim .device false sampleKernel sampleKernel 4 3 4 10
    1 2 3 4 5 6 7 sampleState (by decide) (by decide)

/-- C5: when the kernels write only to their output buffer, so does
`rMassMultAdd`: in every build and however the call ends, every buffer other
than `y` holds what it held before, in particular the four basis tables, `op`
and `x`, which the `__restrict__` qualifier of `y` keeps apart from `y`. -/
theorem rMassMultAdd_writes_only_y {α : Type} (strat : Strategy) (NDEBUG : Bool)
    (k2D k3D : Kernel α)
    (hk2 : k2D.WritesOnlyY) (hk3 : k3D.WritesOnlyY)
    (DIM NUM_DOFS_1D NUM_QUAD_1D numElements : Int)
    (dofToQuad dofToQuadD quadToDof quadToDofD op x y : Ptr)
    (hdistinct : dofToQuad ≠ y ∧ dofToQuadD ≠ y ∧ quadToDof ≠ y ∧ quadToDofD ≠ y
      ∧ op ≠ y ∧ x ≠ y)
    (s : State α) :
    (∀ p : Ptr, p ≠ y →
      (rMassMultAdd strat NDEBUG k2D k3D DIM NUM_DOFS_1D NUM_QUAD_1D numElements
        dofToQuad dofToQuadD quadToDof quadToDofD op x y s).state.mem p = s.mem p)
    ∧ ∀ p : Ptr, p ∈ [dofToQuad, dofToQuadD, quadToDof, quadToDofD, op, x] →
      (rMassMultAdd strat NDEBUG k2D k3D DIM NUM_DOFS_1D NUM_QUAD_1D numElements
        dofToQuad dofToQuadD quadToDof quadToDofD op x y s).state.mem p = s.mem p := by
  have hframe : ∀ p : Ptr, p ≠ y →
      (rMassMultAdd strat NDEBUG k2D k3D DIM NUM_DOFS_1D NUM_QUAD_1D numElements
        dofToQuad dofToQuadD quadToDof quadToDofD op x y s).state.mem p = s.mem p := by
    intro p hp
    unfold rMassMultAdd
    by_cases h2 : DIM = 2
    · subst h2
      simp only [call0, Outcome.state]
      simp
      exact hk2 _ _ _ p hp
    · by_cases h3 : DIM = 3
      · subst h3
        simp only [call0, Outcome.state]
        simp
        exact hk3 _ _ _ p hp
      · by_cases h1 : DIM = 1 ∧ NDEBUG = false <;> simp [h1, h2, h3, Outcome.state]
  refine ⟨hframe, fun p hp => hframe p ?_⟩
  obtain ⟨a, b, c, d, e, f⟩ := hdistinct
  simp only [List.mem_cons, List.mem_singleton, List.not_mem_nil, or_false] at hp
  rcases hp with rfl | rfl | rfl | rfl | rfl | rfl <;> assumption

/-- The sample kernel writes only to its output buffer. -/
theorem sampleKernel_writesOnlyY : sampleKernel.WritesOnlyY := by
  intro launch args m p hp
  simp [sampleKernel, hp]

/-- Witness of C5: the device build, `DIM = 2`, the sample kernel on the
sample memory with `op`, `x`, `y` in buffers 5, 6, 7. -/
theorem rMassMultAdd_writes_only_y_witness :
    (∀ p : Ptr, p ≠ 7 →
      (rMassMultAdd .device false sampleKernel sampleKernel 2 2 2 2 1 2 3 4 5 6 7
        sampleState).state.mem p = sampleState.mem p)
    ∧ ∀ p : Ptr, p ∈ [1, 2, 3, 4, 5, 6] →
      (rMassMultAdd .device false sampleKernel sampleKernel 2 2 2 2 1 2 3 4 5 6 7
        sampleState).state.mem p = sampleState.mem p :=
  rMassMultAdd_writes_only_y .device false sampleKernel sampleKernel
    sampleKernel_writesOnlyY sampleKernel_writesOnlyY 2 2 2 2 1 2 3 4 5 6 7
    (by decide) sampleState

/-- C6, as stated, fails: the device build with `numElements = 2^31 - 1` and
`DIM = 2` reports no error; it returns after launching the 2D kernel with the
wrapped-around grid size `-8388607`. -/
theorem rMassMultAdd_overflow_launches :
    (rMassMultAdd .device false sampleKernel sampleKernel 2 3 4 2147483647 1 2 3 4 5 6 7
      sampleState).calls
      = some [⟨.rMassMultAdd2D, some ⟨-8388607, 256⟩,
          ⟨3, 4, 2147483647, 1, 2, 3, 4, 5, 6, 7⟩⟩] := by
  decide

/-- C6, amended: the launch-parameter computation has no overflow guard.  For
every element count with `2^31-1-255 < numElements ≤ 2^31-1`, a build without
`__LAMBDA__` reports no error: the `int` sum wraps around, the grid size is
the negative number `-((2^32 - 255 - numElements) / 256)` with block size 256,
and for `DIM` 2 or 3 the call returns after invoking the selected kernel once
with these launch parameters. -/
theorem rMassMultAdd_no_overflow_guard (strat : Strategy)
    (hs : strat.definesLAMBDA = false) (numElements : Int)
    (h0 : 2 ^ 31 - 1 - 255 < numElements) (h1 : numElements ≤ 2 ^ 31 - 1) :
    launchConfig strat numElements
        = some ⟨-((2 ^ 32 - 255 - numElements) / 256), 256⟩
    ∧ -((2 ^ 32 - 255 - numElements) / 256) < 0
    ∧ ∀ (α : Type) (NDEBUG : Bool) (k2D k3D : Kernel α)
        (DIM NUM_DOFS_1D NUM_QUAD_1D : Int)
        (dofToQuad dofToQuadD quadToDof quadToDofD op x y : Ptr) (s : State α),
        DIM = 2 ∨ DIM = 3 →
        rMassMultAdd strat NDEBUG k2D k3D DIM NUM_DOFS_1D NUM_QUAD_1D numElements
            dofToQuad dofToQuadD quadToDof quadToDofD op x y s
          = .returned (call0 (if DIM = 2 then .rMassMultAdd2D else .rMassMultAdd3D)
              (if DIM = 2 then k2D else k3D)
              (some ⟨-((2 ^ 32 - 255 - numElements) / 256), 256⟩)
              ⟨NUM_DOFS_1D, NUM_QUAD_1D, numElements, dofToQuad, dofToQuadD,
                quadToDof, quadToDofD, op, x, y⟩ s) := by
  have hl := launchConfig_overflow strat hs numElements h0 h1
  refine ⟨hl, by omega, ?_⟩
  intro α NDEBUG k2D k3D DIM ND NQ dofToQuad dofToQuadD quadToDof quadToDofD op x y s hD
  rcases hD with rfl | rfl <;> simp [rMassMultAdd, hl]

/-- Witness of the amended C6 at the largest `int`. -/
theorem rMassMultAdd_no_overflow_guard_witness :
    launchConfig .device 2147483647
        = some ⟨-((2 ^ 32 - 255 - 2147483647) / 256), 256⟩
    ∧ -((2 ^ 32 - 255 - 2147483647) / 256) < (0 : Int)
    ∧ ∀ (α : Type) (NDEBUG : Bool) (k2D k3D : Kernel α)
        (DIM NUM_DOFS_1D NUM_QUAD_1D : Int)
        (dofToQuad dofToQuadD quadToDof quadToDofD op x y : Ptr) (s : State α),
        DIM = 2 ∨ DIM = 3 →
        rMassMultAdd .device NDEBUG k2D k3D DIM NUM_DOFS_1D NUM_QUAD_1D 2147483647
            dofToQuad dofToQuadD quadToDof quadToDofD op x y s
          = .returned (call0 (if DIM = 2 then .rMassMultAdd2D else .rMassMultAdd3D)
              (if DIM = 2 then k2D else k3D)
              (some ⟨-((2 ^ 32 - 255 - 2147483647) / 256), 256⟩)
              ⟨NUM_DOFS_1D, NUM_QUAD_1D, 2147483647, dofToQuad, dofToQuadD,
                quadToDof, quadToDofD, op, x, y⟩ s) :=
  rMassMultAdd_no_overflow_guard .device rfl 2147483647 (by decide) (by decide)

/-- Folding a guarded body over the lanes `0 .. n + k - 1`, where the guard
admits exactly the lanes below `n`, is folding the body over `0 .. n - 1`. -/
theorem foldl_guard_range {β : Type} (f : Nat → β → β) (N : Int) (n k : Nat)
    (hN : N = (n : Int)) (b : β) :
    (List.range (n + k)).foldl (fun m (t : Nat) => if (t : Int) < N then f t m else m) b
      = (List.range n).foldl (fun m e => f e m) b := by
  subst hN
  induction k with
  | zero =>
    simp only [Nat.add_zero]
    have : ∀ (l : List Nat) (b : β), (∀ t ∈ l, t < n) →
        l.foldl (fun m (t : Nat) => if (t : Int) < (n : Int) then f t m else m) b
          = l.foldl (fun m e => f e m) b := by
      intro l
      induction l with
      | nil => intro b _; rfl
      | cons a l ih =>
        intro b h
        have ha : a < n := h a (List.mem_cons_self _ _)
        simp only [List.foldl_cons]
        rw [if_pos (by exact_mod_cast ha)]
        exact ih _ (fun t ht => h t (List.mem_cons_of_mem _ ht))
    exact this _ b (fun t ht => List.mem_range.mp ht)
  | succ k ih =>
    rw [← Nat.add_assoc, List.range_succ, List.foldl_append, ih]
    simp only [List.foldl_cons, List.foldl_nil]
    rw [if_neg]
    have : (n : Int) ≤ ((n + k : Nat) : Int) := by exact_mod_cast Nat.le_add_right n k
    omega

/-- A fold of pairwise commuting steps does not depend on the order of the
list. -/
theorem foldl_perm_of_independent {β : Type} (f : Nat → β → β)
    (hind : ∀ i j m, i ≠ j → f i (f j m) = f j (f i m))
    (l₁ l₂ : List Nat) (hp : l₁.Perm l₂) (b : β) :
    l₁.foldl (fun m e => f e m) b = l₂.foldl (fun m e => f e m) b := by
  refine hp.foldl_eq' ?_ b
  intro x _ y _ z
  by_cases hxy : x = y
  · subst hxy; rfl
  · exact hind y x z (Ne.symm hxy)

/-- Guarding pairwise commuting steps keeps them pairwise commuting. -/
theorem guard_independent {β : Type} (f : Nat → β → β) (N : Int)
    (hind : ∀ i j m, i ≠ j → f i (f j m) = f j (f i m)) :
    ∀ i j m, i ≠ j →
      (fun (t : Nat) m => if (t : Int) < N then f t m else m) i
          ((fun (t : Nat) m => if (t : Int) < N then f t m else m) j m)
        = (fun (t : Nat) m => if (t : Int) < N then f t m else m) j
          ((fun (t : Nat) m => if (t : Int) < N then f t m else m) i m) := by
  intro i j m hij
  by_cases hi : (i : Int) < N <;> by_cases hj : (j : Int) < N <;> simp [hi, hj]
  exact hind i j m hij

/-- The three executors agree on independent per-element bodies when the
device launch covers every element. -/
theorem forEachElement_agree {α : Type} (schedL schedD : Nat → List Nat)
    (hL : ∀ k, (schedL k).Perm (List.range k))
    (hD : ∀ k, (schedD k).Perm (List.range k))
    (numElements : Int) (lc : LaunchConfig)
    (hcover : numElements ≤ lc.grid * lc.blck) (hblck : 0 ≤ lc.blck)
    (body : Nat → Mem α → Mem α)
    (hind : ∀ i j m, i ≠ j → body i (body j m) = body j (body i m))
    (launchS launchL : Option LaunchConfig) (m : Mem α) :
    forEachElement .lambdaParallel schedL launchL numElements body m
        = forEachElement .sequential schedL launchS numElements body m
    ∧ forEachElement .device schedD (some lc) numElements body m
        = forEachElement .sequential schedL launchS numElements body m := by
  constructor
  · simp only [forEachElement]
    exact foldl_perm_of_independent body hind _ _ (hL _) m
  · simp only [forEachElement]
    rw [foldl_perm_of_independent _ (guard_independent body numElements hind) _ _ (hD _) m]
    by_cases hn : 0 ≤ numElements
    · have hle : numElements.toNat ≤ lc.grid.toNat * lc.blck.toNat := by
        have h1 : ((lc.grid.toNat * lc.blck.toNat : Nat) : Int) = lc.grid.toNat * lc.blck := by
          push_cast
          rw [Int.toNat_of_nonneg hblck]
        have h2 : lc.grid * lc.blck ≤ lc.grid.toNat * lc.blck :=
          Int.mul_le_mul_of_nonneg_right (Int.self_le_toNat _) hblck
        have h3 : (numElements.toNat : Int) = numElements := Int.toNat_of_nonneg hn
        have : (numElements.toNat : Int) ≤ ((lc.grid.toNat * lc.blck.toNat : Nat) : Int) := by
          rw [h1, h3]; exact le_trans hcover h2
        exact_mod_cast this
      obtain ⟨k, hk⟩ := Nat.exists_eq_add_of_le hle
      rw [hk]
      exact foldl_guard_range body numElements _ k (Int.toNat_of_nonneg hn).symm m
    · have h0 : numElements.toNat = 0 := by
        apply Int.toNat_eq_zero.mpr; omega
      rw [h0]
      simp only [List.range_zero, List.foldl_nil]
      have : ∀ (l : List Nat) (b : Mem α),
          l.foldl (fun m (t : Nat) => if (t : Int) < numElements then body t m else m) b = b := by
        intro l
        induction l with
        | nil => intro b; rfl
        | cons a l ih =>
          intro b
          simp only [List.foldl_cons]
          rw [if_neg (by omega)]
          exact ih b
      exact this _ m

/-- C7: for `DIM` 2 or 3 and the same inputs, `rMassMultAdd` leaves the same
memory, hence the same output `y`, in the sequential build, in the
parallel-lambda build (no launch parameters) and in the device build with
`grid = ceil(numElements/256)` and `blck = 256`, whatever the order in which
the parallel lanes run and whether or not each build defines `NDEBUG`, the
kernels being per-element bodies that are independent of each other. -/
theorem rMassMultAdd_strategies_agree {α : Type}
    (body2D body3D : KernelArgs → Nat → Mem α → Mem α)
    (schedL schedD : Nat → List Nat)
    (hL : ∀ k, (schedL k).Perm (List.range k))
    (hD : ∀ k, (schedD k).Perm (List.range k))
    (ndebugS ndebugL ndebugD : Bool)
    (DIM NUM_DOFS_1D NUM_QUAD_1D numElements : Int)
    (dofToQuad dofToQuadD quadToDof quadToDofD op x y : Ptr) (s : State α)
    (hDIM : DIM = 2 ∨ DIM = 3)
    (hgrid : launchConfig .device numElements
      = some ⟨⌈(numElements : ℚ) / 256⌉, 256⟩)
    (hind2 : ∀ i j m, i ≠ j →
      body2D ⟨NUM_DOFS_1D, NUM_QUAD_1D, numElements, dofToQuad, dofToQuadD,
          quadToDof, quadToDofD, op, x, y⟩ i
        (body2D ⟨NUM_DOFS_1D, NUM_QUAD_1D, numElements, dofToQuad, dofToQuadD,
          quadToDof, quadToDofD, op, x, y⟩ j m)
      = body2D ⟨NUM_DOFS_1D, NUM_QUAD_1D, numElements, dofToQuad, dofToQuadD,
          quadToDof, quadToDofD, op, x, y⟩ j
        (body2D ⟨NUM_DOFS_1D, NUM_QUAD_1D, numElements, dofToQuad, dofToQuadD,
          quadToDof, quadToDofD, op, x, y⟩ i m))
    (hind3 : ∀ i j m, i ≠ j →
      body3D ⟨NUM_DOFS_1D, NUM_QUAD_1D, numElements, dofToQuad, dofToQuadD,
          quadToDof, quadToDofD, op, x, y⟩ i
        (body3D ⟨NUM_DOFS_1D, NUM_QUAD_1D, numElements, dofToQuad, dofToQuadD,
          quadToDof, quadToDofD, op, x, y⟩ j m)
      = body3D ⟨NUM_DOFS_1D, NUM_QUAD_1D, numElements, dofToQuad, dofToQuadD,
          quadToDof, quadToDofD, op, x, y⟩ j
        (body3D ⟨NUM_DOFS_1D, NUM_QUAD_1D, numElements, dofToQuad, dofToQuadD,
          quadToDof, quadToDofD, op, x, y⟩ i m)) :
    ∃ m' : Mem α,
      (rMassMultAdd .sequential ndebugS (elementKernel .sequential schedL body2D)
          (elementKernel .sequential schedL body3D)
          DIM NUM_DOFS_1D NUM_QUAD_1D numElements
          dofToQuad dofToQuadD quadToDof quadToDofD op x y s).mem = some m'
      ∧ (rMassMultAdd .lambdaParallel ndebugL
          (elementKernel .lambdaParallel schedL body2D)
          (elementKernel .lambdaParallel schedL body3D)
          DIM NUM_DOFS_1D NUM_QUAD_1D numElements
          dofToQuad dofToQuadD quadToDof quadToDofD op x y s).mem = some m'
      ∧ (rMassMultAdd .device ndebugD (elementKernel .device schedD body2D)
          (elementKernel .device schedD body3D)
          DIM NUM_DOFS_1D NUM_QUAD_1D numElements
          dofToQuad dofToQuadD quadToDof quadToDofD op x y s).mem = some m' := by
  have hcover : numElements
      ≤ (⟨⌈(numElements : ℚ) / 256⌉, 256⟩ : LaunchConfig).grid
        * (⟨⌈(numElements : ℚ) / 256⌉, 256⟩ : LaunchConfig).blck := by
    have h := Int.le_ceil ((numElements : ℚ) / 256)
    rw [div_le_iff₀ (by norm_num : (0 : ℚ) < 256)] at h
    have h2 : (numElements : ℚ) ≤ ((⌈(numElements : ℚ) / 256⌉ * 256 : ℤ) : ℚ) := by
      push_cast
      exact h
    exact_mod_cast h2
  rcases hDIM with rfl | rfl
  · obtain ⟨hl, hd⟩ := forEachElement_agree schedL schedD hL hD numElements _ hcover
      (by norm_num) _ hind2 (launchConfig .sequential numElements)
      (launchConfig .lambdaParallel numElements) s.mem
    refine ⟨_, rfl, ?_, ?_⟩
    · simp only [rMassMultAdd, call0, Outcome.mem, elementKernel]
      simpa using hl
    · simp only [rMassMultAdd, call0, Outcome.mem, elementKernel, hgrid]
      simpa using hd
  · obtain ⟨hl, hd⟩ := forEachElement_agree schedL schedD hL hD numElements _ hcover
      (by norm_num) _ hind3 (launchConfig .sequential numElements)
      (launchConfig .lambdaParallel numElements) s.mem
    refine ⟨_, rfl, ?_, ?_⟩
    · simp only [rMassMultAdd, call0, Outcome.mem, elementKernel]
      simpa using hl
    · simp only [rMassMultAdd, call0, Outcome.mem, elementKernel, hgrid]
      simpa using hd

/-- The sample per-element body is independent across elements. -/
theorem sampleBody_independent (args : KernelArgs) (i j : Nat) (m : Mem Int)
    (hij : i ≠ j) :
    sampleBody args i (sampleBody args j m) = sampleBody args j (sampleBody args i m) := by
  have hget : ∀ (l : List Int) (a b : Nat) (v : Int), a ≠ b →
      (l.set b v).getD a 0 = l.getD a 0 := by
    intro l a b v hab
    simp [List.getD_eq_getElem?_getD, List.getElem?_set_ne (Ne.symm hab)]
  have hbuf : ∀ (q : Ptr) (a b : Nat), a ≠ b →
      (sampleBody args b m q).getD a 0 = (m q).getD a 0 := by
    intro q a b hab
    unfold sampleBody
    by_cases hq : q = args.y
    · rw [if_pos hq, hget _ _ _ _ hab, hq]
    · rw [if_neg hq]
  funext p
  by_cases hp : p = args.y
  · subst hp
    have e1 : sampleBody args i (sampleBody args j m) args.y
        = (sampleBody args j m args.y).set i
            ((sampleBody args j m args.y).getD i 0
              + (sampleBody args j m args.op).getD i 0
                * (sampleBody args j m args.x).getD i 0) := by
      simp [sampleBody]
    have e2 : sampleBody args j (sampleBody args i m) args.y
        = (sampleBody args i m args.y).set j
            ((sampleBody args i m args.y).getD j 0
              + (sampleBody args i m args.op).getD j 0
                * (sampleBody args i m args.x).getD j 0) := by
      simp [sampleBody]
    rw [e1, e2, hbuf _ _ _ hij, hbuf _ _ _ hij, hbuf _ _ _ hij,
      hbuf _ _ _ (Ne.symm hij), hbuf _ _ _ (Ne.symm hij), hbuf _ _ _ (Ne.symm hij)]
    have e3 : ∀ k, sampleBody args k m args.y
        = (m args.y).set k
            ((m args.y).getD k 0 + (m args.op).getD k 0 * (m args.x).getD k 0) := by
      intro k; simp [sampleBody]
    rw [e3 i, e3 j]
    exact List.set_comm _ _ _ (Ne.symm hij)
  · simp [sampleBody, hp]

/-- The descending schedule runs every lane once. -/
theorem sampleSched_perm (k : Nat) : (sampleSched k).Perm (List.range k) :=
  List.reverse_perm _

/-- Witness of C7: two elements in 2D, the sample body on the sample memory,
the parallel lanes in descending order, `NDEBUG` defined in the
parallel-lambda build only. -/
theorem rMassMultAdd_strategies_agree_witness :
    ∃ m' : Mem Int,
      (rMassMultAdd .sequential false (elementKernel .sequential sampleSched sampleBody)
          (elementKernel .sequential sampleSched sampleBody)
          2 2 2 2 1 2 3 4 5 6 7 sampleState).mem = some m'
      ∧ (rMassMultAdd .lambdaParallel true
          (elementKernel .lambdaParallel sampleSched sampleBody)
          (elementKernel .lambdaParallel sampleSched sampleBody)
          2 2 2 2 1 2 3 4 5 6 7 sampleState).mem = some m'
      ∧ (rMassMultAdd .device false (elementKernel .device sampleSched sampleBody)
          (elementKernel .device sampleSched sampleBody)
          2 2 2 2 1 2 3 4 5 6 7 sampleState).mem = some m' :=
  rMassMultAdd_strategies_agree sampleBody sampleBody sampleSched sampleSched
    sampleSched_perm sampleSched_perm false true false 2 2 2 2 1 2 3 4 5 6 7 sampleState
    (Or.inl rfl)
    (by
      have hc : ⌈((2 : Int) : ℚ) / 256⌉ = 1 := by
        rw [Int.ceil_eq_iff]; norm_num
      rw [hc]; decide)
    (fun i j m hij => sampleBody_independent _ i j m hij)
    (fun i j m hij => sampleBody_independent _ i j m hij)

/-! ## The transfer primitives -/

/-- A copy within the sizes of both buffers returns the destination with its
first bytes replaced by those of the source. -/
theorem copyBytes_eq (dst src : List Byte) (n : Nat)
    (hd : n ≤ dst.length) (hs : n ≤ src.length) :
    copyBytes dst src n = some (src.take n ++ dst.drop n) := by
  simp [copyBytes, hd, hs]

/-- The first bytes of the destination after a copy are those of the
source. -/
theorem take_copied (dst src : List Byte) (n : Nat) (hs : n ≤ src.length) :
    (src.take n ++ dst.drop n).take n = src.take n := by
  rw [List.take_append_of_le_length (by simp [hs])]
  rw [List.take_take, Nat.min_self]

/-- C8: for a byte count `n` within the sizes of the three buffers, `rHtoD`
of `n` bytes from the host buffer `b` into a device buffer and then `rDtoH`
of `n` bytes from it into a second host buffer both return, and leave the
second host buffer with its first `n` bytes equal to the first `n` bytes of
`b`, its other bytes and its size as they were. -/
theorem rmemcpy_round_trip (b : HostBuffer) (dev : DeviceBuffer) (back : HostBuffer)
    (n : Nat) (async1 async2 : Bool)
    (hb : n ≤ b.bytes.length) (hdev : n ≤ dev.bytes.length)
    (hback : n ≤ back.bytes.length) :
    ∃ (dev1 : DeviceBuffer) (back1 : HostBuffer),
      rmemcpy.rHtoD dev b n async1 = some dev1
      ∧ rmemcpy.rDtoH back dev1 n async2 = some back1
      ∧ back1.bytes.take n = b.bytes.take n
      ∧ back1.bytes.drop n = back.bytes.drop n
      ∧ back1.bytes.length = back.bytes.length := by
  have hlen : (b.bytes.take n ++ dev.bytes.drop n).length = dev.bytes.length := by
    simp only [List.length_append, List.length_take, List.length_drop]
    omega
  refine ⟨⟨b.bytes.take n ++ dev.bytes.drop n⟩,
    ⟨(b.bytes.take n ++ dev.bytes.drop n).take n ++ back.bytes.drop n⟩, ?_, ?_, ?_, ?_, ?_⟩
  · simp [rmemcpy.rHtoD, copyBytes_eq _ _ n hdev hb]
  · simp only [rmemcpy.rDtoH]
    rw [copyBytes_eq _ _ n hback (by rw [hlen]; exact hdev)]
    rfl
  · show ((b.bytes.take n ++ dev.bytes.drop n).take n ++ back.bytes.drop n).take n = _
    rw [take_copied _ _ n (by rw [hlen]; exact hdev), take_copied _ _ n hb]
  · show ((b.bytes.take n ++ dev.bytes.drop n).take n ++ back.bytes.drop n).drop n = _
    rw [List.drop_append_of_le_length (by simp [hb, hdev, hlen])]
    rw [List.drop_eq_nil_of_le (by simp)]
    rfl
  · show ((b.bytes.take n ++ dev.bytes.drop n).take n ++ back.bytes.drop n).length = _
    simp only [List.length_append, List.length_take, List.length_drop]
    omega

/-- Witness of C8: three of the four bytes of a host buffer go through a
device buffer of five bytes into a host buffer of four. -/
theorem rmemcpy_round_trip_witness :
    ∃ (dev1 : DeviceBuffer) (back1 : HostBuffer),
      rmemcpy.rHtoD ⟨[0, 0, 0, 0, 0]⟩ ⟨[222, 173, 190, 239]⟩ 3 false = some dev1
      ∧ rmemcpy.rDtoH ⟨[7, 7, 7, 7]⟩ dev1 3 false = some back1
      ∧ back1.bytes.take 3 = (⟨[222, 173, 190, 239]⟩ : HostBuffer).bytes.take 3
      ∧ back1.bytes.drop 3 = (⟨[7, 7, 7, 7]⟩ : HostBuffer).bytes.drop 3
      ∧ back1.bytes.length = (⟨[7, 7, 7, 7]⟩ : HostBuffer).bytes.length :=
  rmemcpy_round_trip ⟨[222, 173, 190, 239]⟩ ⟨[0, 0, 0, 0, 0]⟩ ⟨[7, 7, 7, 7]⟩ 3 false false
    (by decide) (by decide) (by decide)

/-! ## The Volta solver -/

/-- C9 at the failing input: a solver built with a `rho_src` function and one
Neumann attribute, on a free store whose next address is 100 (the objects of
the caller are at the addresses 1 to 7).  With one call of `InitializeGLVis`
the destructor releases all 26 objects allocated, each once, and nothing
else.  With two calls the five socket streams of the first call, at the
addresses 121 to 125, are allocated and never deleted. -/
theorem VoltaSolver_second_InitializeGLVis_leaks :
    (∃ h : Heap,
      lifeCycle 1 2 3 4 5 6 7 none (some 50) none sampleCaller
        [.InitializeGLVis] sampleHeap = .ok h
      ∧ h.allocated.length = 26 ∧ h.leaked = [] ∧ h.deleted.Nodup
      ∧ ∀ a ∈ h.deleted, a ∈ h.allocated)
    ∧ ∃ h : Heap,
      lifeCycle 1 2 3 4 5 6 7 none (some 50) none sampleCaller
        [.InitializeGLVis, .InitializeGLVis] sampleHeap = .ok h
      ∧ h.allocated.length = 31 ∧ h.leaked = [121, 122, 123, 124, 125]
      ∧ ∀ a ∈ h.deleted, a ∈ h.allocated := by
  refine ⟨⟨_, rfl, by rfl, by rfl, by decide, by decide⟩, ⟨_, rfl, by rfl, by rfl, by decide⟩⟩

/-- What `coreAllocated` says, member by member. -/
theorem coreAllocated_iff (s : VoltaSolver) :
    s.coreAllocated = true ↔
      (s.pmesh_.isSome ∧ s.dbcs_.isSome ∧ s.dbcv_.isSome ∧ s.nbcs_.isSome
        ∧ s.nbcv_.isSome ∧ s.epsCoef_.isSome
        ∧ s.H1FESpace_.isSome ∧ s.HCurlFESpace_.isSome ∧ s.HDivFESpace_.isSome
        ∧ s.divEpsGrad_.isSome ∧ s.hDivMass_.isSome ∧ s.hCurlHDivEps_.isSome
        ∧ s.grad_.isSome ∧ s.phi_.isSome ∧ s.rhod_.isSome ∧ s.d_.isSome
        ∧ s.e_.isSome) := by
  simp [VoltaSolver.coreAllocated, and_assoc]

/-- What `matched` says, member by member. -/
theorem matched_iff (s : VoltaSolver) (rho_src p_src : ObjPtr) (nbcs : List Int) :
    s.matched rho_src p_src nbcs = true ↔
      (s.rho_.isSome = rho_src.isSome ∧ s.h1Mass_.isSome = rho_src.isSome
        ∧ s.rhoCoef_.isSome = rho_src.isSome
        ∧ s.p_.isSome = p_src.isSome ∧ s.hCurlHDiv_.isSome = p_src.isSome
        ∧ s.weakDiv_.isSome = p_src.isSome ∧ s.pCoef_.isSome = p_src.isSome
        ∧ s.sigma_.isSome = !nbcs.isEmpty ∧ s.h1SurfMass_.isSome = !nbcs.isEmpty) := by
  simp [VoltaSolver.matched, and_assoc]

/-- A dereference of a non-null pointer succeeds. -/
theorem deref_of_isSome (p : ObjPtr) (h : p.isSome = true) : deref p = .ok () := by
  cases p with
  | none => simp at h
  | some a => rfl

/-- A dereference guarded by the pointer itself succeeds. -/
theorem ifThen_deref (p : ObjPtr) : ifThen p.isSome (deref p) = .ok () := by
  cases p <;> rfl

/-- A guarded block whose guard is false is skipped. -/
theorem ifThen_false (body : Except Fault Unit) : ifThen false body = .ok () := rfl

/-- A guarded block whose guard is true is run. -/
theorem ifThen_true (body : Except Fault Unit) : ifThen true body = body := rfl

/-- `Assemble` dereferences non-null pointers only, and changes no member. -/
theorem Assemble_ok (s : VoltaSolver) (hcore : s.coreAllocated = true) :
    s.Assemble = .ok s := by
  rw [coreAllocated_iff] at hcore
  obtain ⟨h1, h2, h3, h4, h5, h6, h7, h8, h9, h10, h11, h12, h13, h14, h15, h16, h17⟩ := hcore
  unfold VoltaSolver.Assemble
  simp only [deref_of_isSome _ h10, deref_of_isSome _ h11, deref_of_isSome _ h12,
    deref_of_isSome _ h13, ifThen_deref]
  rfl

/-- `Update` dereferences non-null pointers only, and changes no member. -/
theorem Update_ok (s : VoltaSolver) (hcore : s.coreAllocated = true) :
    s.Update = .ok s := by
  rw [coreAllocated_iff] at hcore
  obtain ⟨h1, h2, h3, h4, h5, h6, h7, h8, h9, h10, h11, h12, h13, h14, h15, h16, h17⟩ := hcore
  unfold VoltaSolver.Update
  simp only [deref_of_isSome _ h7, deref_of_isSome _ h8, deref_of_isSome _ h9,
    deref_of_isSome _ h10, deref_of_isSome _ h11, deref_of_isSome _ h12,
    deref_of_isSome _ h13, deref_of_isSome _ h14, deref_of_isSome _ h15,
    deref_of_isSome _ h16, deref_of_isSome _ h17, ifThen_deref]
  rfl

/-- The attribute loop of `Solve` on non-null pointers ends normally or with
an array access out of bounds, and ends normally when the attributes are in
range and each has a value. -/
theorem projectPiecewise_spec (bdrAttrMax : Nat) (values : ObjPtr) (valuesSize : Nat)
    (gf : ObjPtr) (hv : values.isSome = true) (hg : gf.isSome = true)
    (attrs : List Int) (i : Nat) :
    (projectPiecewise bdrAttrMax values valuesSize gf i attrs = .ok ()
      ∨ projectPiecewise bdrAttrMax values valuesSize gf i attrs = .error .outOfBounds)
    ∧ ((∀ a ∈ attrs, 1 ≤ a ∧ a ≤ bdrAttrMax) → i + attrs.length ≤ valuesSize →
        projectPiecewise bdrAttrMax values valuesSize gf i attrs = .ok ()) := by
  induction attrs generalizing i with
  | nil => exact ⟨Or.inl rfl, fun _ _ => rfl⟩
  | cons a rest ih =>
    unfold projectPiecewise
    simp only [deref_of_isSome _ hv, deref_of_isSome _ hg]
    by_cases hi : i < valuesSize
    · by_cases ha : 0 ≤ a - 1 ∧ a - 1 < ((List.replicate bdrAttrMax (0 : Int)).length : Int)
      · have e : (do
            Except.ok ()
            checkIndex valuesSize i
            let _ ← arrayAssign (List.replicate bdrAttrMax 0) (a - 1) 1
            Except.ok ()
            projectPiecewise bdrAttrMax values valuesSize gf (i + 1) rest)
            = projectPiecewise bdrAttrMax values valuesSize gf (i + 1) rest := by
          simp only [checkIndex, arrayAssign, hi, ha, if_true, and_self]
          rfl
        rw [e]
        refine ⟨(ih (i + 1)).1, fun hr hl => (ih (i + 1)).2 ?_ ?_⟩
        · exact fun b hb => hr b (List.mem_cons_of_mem _ hb)
        · simp only [List.length_cons] at hl; omega
      · have e : (do
            Except.ok ()
            checkIndex valuesSize i
            let _ ← arrayAssign (List.replicate bdrAttrMax 0) (a - 1) 1
            Except.ok ()
            projectPiecewise bdrAttrMax values valuesSize gf (i + 1) rest)
            = (.error .outOfBounds : Except Fault Unit) := by
          simp only [checkIndex, arrayAssign, hi, ha, if_true, if_false]
          rfl
        rw [e]
        refine ⟨Or.inr rfl, fun hr _ => absurd ?_ ha⟩
        have := hr a (List.mem_cons_self _ _)
        simp only [List.length_replicate]
        omega
    · have e : (do
          Except.ok ()
          checkIndex valuesSize i
          let _ ← arrayAssign (List.replicate bdrAttrMax 0) (a - 1) 1
          Except.ok ()
          projectPiecewise bdrAttrMax values valuesSize gf (i + 1) rest)
          = (.error .outOfBounds : Except Fault Unit) := by
        simp only [checkIndex, hi, if_false]
        rfl
      rw [e]
      refine ⟨Or.inr rfl, fun _ hl => ?_⟩
      simp only [List.length_cons] at hl
      omega

/-- Lines 295-314 of `Solve` on a constructed solver: no null pointer is
dereferenced. -/
theorem applyDirichlet_spec (env : Caller) (s : VoltaSolver)
    (hcore : s.coreAllocated = true) :
    (s.applyDirichlet env = .ok () ∨ s.applyDirichlet env = .error .outOfBounds)
    ∧ (attributesInRange env.bdrAttrMax env.dbcvSize env.dbcs = true →
        s.applyDirichlet env = .ok ()) := by
  rw [coreAllocated_iff] at hcore
  obtain ⟨h1, h2, h3, h4, h5, h6, h7, h8, h9, h10, h11, h12, h13, h14, h15, h16, h17⟩ := hcore
  have hpp := projectPiecewise_spec env.bdrAttrMax s.dbcv_ env.dbcvSize s.phi_ h3 h14
    env.dbcs 0
  unfold VoltaSolver.applyDirichlet
  simp only [deref_of_isSome _ h2, deref_of_isSome _ h14, deref_of_isSome _ h1]
  by_cases hd : env.dbcs.length > 0
  · simp only [hd, decide_True, ifThen_true]
    cases hc : s.phiBCCoef_ with
    | some a => exact ⟨Or.inl rfl, fun _ => rfl⟩
    | none =>
      simp only [Option.isSome_none, Bool.false_eq_true, if_false]
      refine ⟨?_, fun hr => ?_⟩
      · rcases hpp.1 with h | h
        · left; rw [h]; rfl
        · right; rw [h]; rfl
      · have := hpp.2 (by
            simp only [attributesInRange, Bool.and_eq_true, List.all_eq_true,
              decide_eq_true_eq] at hr
            exact hr.1) (by
            simp only [attributesInRange, Bool.and_eq_true, decide_eq_true_eq] at hr
            omega)
        rw [this]; rfl
  · simp only [hd, decide_False, ifThen_false]
    exact ⟨Or.inl rfl, fun _ => rfl⟩

/-- Lines 316-344 of `Solve` on a constructed solver: under each guard the
members dereferenced are non-null. -/
theorem addSources_spec (env : Caller) (s : VoltaSolver) (rho_src p_src : ObjPtr)
    (nbcs : List Int) (hcore : s.coreAllocated = true)
    (hm : s.matched rho_src p_src nbcs = true) :
    (s.addSources env = .ok () ∨ s.addSources env = .error .outOfBounds)
    ∧ (attributesInRange env.bdrAttrMax env.nbcvSize env.nbcs = true →
        s.addSources env = .ok ()) := by
  rw [coreAllocated_iff] at hcore
  obtain ⟨h1, h2, h3, h4, h5, h6, h7, h8, h9, h10, h11, h12, h13, h14, h15, h16, h17⟩ := hcore
  rw [matched_iff] at hm
  obtain ⟨m1, m2, m3, m4, m5, m6, m7, m8, m9⟩ := hm
  have hrho : ifThen s.rho_.isSome (do
      deref s.rho_
      deref s.rhoCoef_
      deref s.h1Mass_
      deref s.rhod_) = .ok () := by
    cases hr : s.rho_.isSome with
    | false => rfl
    | true =>
      rw [hr] at m1
      rw [ifThen_true, deref_of_isSome _ hr, deref_of_isSome _ (m3.trans m1.symm),
        deref_of_isSome _ (m2.trans m1.symm), deref_of_isSome _ h15]
      rfl
  have hp : ifThen s.p_.isSome (do
      deref s.p_
      deref s.pCoef_
      deref s.weakDiv_
      deref s.rhod_) = .ok () := by
    cases hr : s.p_.isSome with
    | false => rfl
    | true =>
      rw [hr] at m4
      rw [ifThen_true, deref_of_isSome _ hr, deref_of_isSome _ (m7.trans m4.symm),
        deref_of_isSome _ (m6.trans m4.symm), deref_of_isSome _ h15]
      rfl
  unfold VoltaSolver.addSources
  rw [hrho, hp]
  cases hr : s.sigma_.isSome with
  | false => exact ⟨Or.inl rfl, fun _ => rfl⟩
  | true =>
    rw [hr] at m8
    have hpp := projectPiecewise_spec env.bdrAttrMax s.nbcv_ env.nbcvSize s.sigma_ h5 hr
      env.nbcs 0
    rw [ifThen_true, deref_of_isSome _ hr, deref_of_isSome _ h1, deref_of_isSome _ h4,
      deref_of_isSome _ (m9.trans m8.symm), deref_of_isSome _ h15]
    refine ⟨?_, fun hin => ?_⟩
    · rcases hpp.1 with h | h
      · left; rw [h]; rfl
      · right; rw [h]; rfl
    · have := hpp.2 (by
          simp only [attributesInRange, Bool.and_eq_true, List.all_eq_true,
            decide_eq_true_eq] at hin
          exact hin.1) (by
          simp only [attributesInRange, Bool.and_eq_true, decide_eq_true_eq] at hin
          omega)
      rw [this]; rfl

/-- Lines 346-360 of `Solve` on a constructed solver always produce a list. -/
theorem essentialTrueDofs_ok (env : Caller) (s : VoltaSolver)
    (hcore : s.coreAllocated = true) :
    ∃ t, s.essentialTrueDofs env = .ok t := by
  rw [coreAllocated_iff] at hcore
  obtain ⟨h1, h2, h3, h4, h5, h6, h7, h8, h9, h10, h11, h12, h13, h14, h15, h16, h17⟩ := hcore
  unfold VoltaSolver.essentialTrueDofs
  simp only [deref_of_isSome _ h2, deref_of_isSome _ h7]
  by_cases hd : env.dbcs.length > 0
  · exact ⟨env.getEssentialTrueDofs s.ess_bdr_, by simp only [hd, if_true]; rfl⟩
  · by_cases hz : s.myid_ = 0
    · refine ⟨(arraySetSize 1 s.ess_bdr_tdofs_).set 0 0, ?_⟩
      have hl : (0 : Int) < ((arraySetSize 1 s.ess_bdr_tdofs_).length : Int) := by
        have : (arraySetSize 1 s.ess_bdr_tdofs_).length = 1 := by
          simp only [arraySetSize, List.length_append, List.length_take,
            List.length_replicate]
          omega
        rw [this]; norm_num
      simp only [hd, hz, if_true, if_false, arrayAssign, hl, le_refl, and_self]
      rfl
    · exact ⟨s.ess_bdr_tdofs_, by simp only [hd, hz, if_false]; rfl⟩

/-- Lines 362-419 of `Solve` on a constructed solver dereference non-null
pointers only. -/
theorem solveSystems_ok (s : VoltaSolver) (rho_src p_src : ObjPtr) (nbcs : List Int)
    (hcore : s.coreAllocated = true) (hm : s.matched rho_src p_src nbcs = true) :
    s.solveSystems = .ok () := by
  rw [coreAllocated_iff] at hcore
  obtain ⟨h1, h2, h3, h4, h5, h6, h7, h8, h9, h10, h11, h12, h13, h14, h15, h16, h17⟩ := hcore
  rw [matched_iff] at hm
  obtain ⟨m1, m2, m3, m4, m5, m6, m7, m8, m9⟩ := hm
  have hp : ifThen s.p_.isSome (do
      deref s.hCurlHDiv_
      deref s.p_) = .ok () := by
    cases hr : s.p_.isSome with
    | false => rfl
    | true =>
      rw [hr] at m4
      rw [ifThen_true, deref_of_isSome _ hr, deref_of_isSome _ (m5.trans m4.symm)]
      rfl
  unfold VoltaSolver.solveSystems
  rw [hp]
  simp only [deref_of_isSome _ h7, deref_of_isSome _ h9, deref_of_isSome _ h10,
    deref_of_isSome _ h11, deref_of_isSome _ h12, deref_of_isSome _ h13,
    deref_of_isSome _ h14, deref_of_isSome _ h15, deref_of_isSome _ h16,
    deref_of_isSome _ h17]
  rfl

/-- `Solve` on a constructed solver: it ends normally, changing no member
other than `ess_bdr_tdofs_`, or with an array access out of bounds; it ends
normally when the attribute lists of the caller are in range. -/
theorem Solve_spec (env : Caller) (s : VoltaSolver) (rho_src p_src : ObjPtr)
    (nbcs : List Int) (hcore : s.coreAllocated = true)
    (hm : s.matched rho_src p_src nbcs = true) :
    ((∃ t, s.Solve env = .ok { s with ess_bdr_tdofs_ := t })
      ∨ s.Solve env = .error .outOfBounds)
    ∧ (env.inRange = true → ∃ t, s.Solve env = .ok { s with ess_bdr_tdofs_ := t }) := by
  obtain ⟨t, ht⟩ := essentialTrueDofs_ok env s hcore
  have hd := applyDirichlet_spec env s hcore
  have ha := addSources_spec env s rho_src p_src nbcs hcore hm
  have hs := solveSystems_ok { s with ess_bdr_tdofs_ := t } rho_src p_src nbcs hcore hm
  have hphi : deref s.phi_ = .ok () :=
    deref_of_isSome _ ((coreAllocated_iff s).mp hcore).2.2.2.2.2.2.2.2.2.2.2.2.2.1
  have hrhod : deref s.rhod_ = .ok () :=
    deref_of_isSome _ ((coreAllocated_iff s).mp hcore).2.2.2.2.2.2.2.2.2.2.2.2.2.2.1
  have key : ∀ (r1 r2 : Except Fault Unit),
      s.applyDirichlet env = r1 → s.addSources env = r2 →
      (r1 = .ok () → r2 = .ok () → s.Solve env = .ok { s with ess_bdr_tdofs_ := t })
      ∧ (r1 = .error .outOfBounds → s.Solve env = .error .outOfBounds)
      ∧ (r1 = .ok () → r2 = .error .outOfBounds → s.Solve env = .error .outOfBounds) := by
    intro r1 r2 e1 e2
    unfold VoltaSolver.Solve
    rw [hphi, hrhod, e1, e2, ht]
    refine ⟨?_, ?_, ?_⟩
    · rintro rfl rfl
      show (do
        VoltaSolver.solveSystems { s with ess_bdr_tdofs_ := t }
        pure { s with ess_bdr_tdofs_ := t }) = _
      rw [hs]; rfl
    · rintro rfl; rfl
    · rintro rfl rfl; rfl
  obtain ⟨k1, k2, k3⟩ := key _ _ rfl rfl
  refine ⟨?_, fun hin => ?_⟩
  · rcases hd.1 with h1 | h1
    · rcases ha.1 with h2 | h2
      · exact Or.inl ⟨t, k1 h1 h2⟩
      · exact Or.inr (k3 h1 h2)
    · exact Or.inr (k2 h1)
  · simp only [Caller.inRange, Bool.and_eq_true] at hin
    exact ⟨t, k1 (hd.2 hin.1) (ha.2 hin.2)⟩

/-- The Dirichlet loop of the constructor changes `ess_bdr_` only. -/
theorem selectDirichlet_spec (env : Caller) (s s1 : VoltaSolver)
    (h : VoltaSolver.selectDirichlet env s = .ok s1) :
    ∃ marker, s1 = { s with ess_bdr_ := marker } := by
  unfold VoltaSolver.selectDirichlet at h
  split at h
  · cases h
  · rename_i marker _
    exact ⟨marker, by cases h; rfl⟩

/-- The constructor, when it returns, leaves the members of every
construction non-null and the optional members in matched groups. -/
theorem construct_spec (pmesh : Nat) (order : Int) (dbcs dbcv nbcs nbcv epsCoef : Nat)
    (phi_bc rho_src p_src : ObjPtr) (env : Caller) (h : Heap)
    (s0 : VoltaSolver) (h0 : Heap)
    (hc : VoltaSolver.construct pmesh order dbcs dbcv nbcs nbcv epsCoef
      phi_bc rho_src p_src env h = .ok (s0, h0)) :
    s0.coreAllocated = true ∧ s0.matched rho_src p_src env.nbcs = true := by
  unfold VoltaSolver.construct at hc
  cases hsel : VoltaSolver.selectDirichlet env
      (VoltaSolver.constructSpaces pmesh order dbcs dbcv nbcs nbcv epsCoef
        phi_bc rho_src p_src env h).1 with
  | error f =>
    simp only [hsel] at hc
    cases hc
  | ok s1 =>
    simp only [hsel, Except.ok.injEq] at hc
    obtain ⟨marker, rfl⟩ := selectDirichlet_spec _ _ _ hsel
    have h1 := congrArg Prod.fst hc
    simp only at h1
    subst h1
    unfold VoltaSolver.matched VoltaSolver.constructOptional
    by_cases hl : env.nbcs.length > 0
    · have hn : env.nbcs.isEmpty = false := by
        cases hq : env.nbcs with
        | nil => rw [hq] at hl; simp at hl
        | cons a l => rfl
      rw [hn]
      simp only [if_pos hl]
      cases phi_bc <;> cases rho_src <;> cases p_src <;> exact ⟨rfl, rfl⟩
    · have hn : env.nbcs.isEmpty = true := by
        cases hq : env.nbcs with
        | nil => rfl
        | cons a l => rw [hq] at hl; simp at hl
      rw [hn]
      simp only [if_neg hl]
      cases phi_bc <;> cases rho_src <;> cases p_src <;> exact ⟨rfl, rfl⟩

/-- The Dirichlet loop faults only by an array access out of bounds, and not
at all when every attribute is one of `1 .. size of the marker`. -/
theorem markAttributes_spec (attrs : List Int) (marker : List Int) :
    (∀ f, markAttributes attrs marker = .error f → f = .outOfBounds)
    ∧ ((∀ a ∈ attrs, 1 ≤ a ∧ a ≤ marker.length) →
        ∃ m, markAttributes attrs marker = .ok m) := by
  induction attrs generalizing marker with
  | nil => exact ⟨fun f h => (by cases h), fun _ => ⟨marker, rfl⟩⟩
  | cons a rest ih =>
    unfold markAttributes
    by_cases ha : 0 ≤ a - 1 ∧ a - 1 < (marker.length : Int)
    · have e : arrayAssign marker (a - 1) 1 = .ok (marker.set (a - 1).toNat 1) := by
        simp only [arrayAssign, ha, and_self, if_true]
      rw [e]
      refine ⟨fun f h => (ih _).1 f h, fun hr => (ih _).2 ?_⟩
      intro b hb
      rw [List.length_set]
      exact hr b (List.mem_cons_of_mem _ hb)
    · have e : arrayAssign marker (a - 1) 1 = .error .outOfBounds := by
        simp only [arrayAssign, ha, if_false]
      rw [e]
      refine ⟨fun f h => (by cases h; rfl), fun hr => absurd ?_ ha⟩
      have := hr a (List.mem_cons_self _ _)
      omega

/-- The constructor faults only by an array access out of bounds, and
returns when every Dirichlet attribute is one of `1 .. bdr_attributes.Max()`. -/
theorem construct_returns (pmesh : Nat) (order : Int) (dbcs dbcv nbcs nbcv epsCoef : Nat)
    (phi_bc rho_src p_src : ObjPtr) (env : Caller) (h : Heap) :
    (∀ f, VoltaSolver.construct pmesh order dbcs dbcv nbcs nbcv epsCoef
        phi_bc rho_src p_src env h = .error f → f = .outOfBounds)
    ∧ ((∀ a ∈ env.dbcs, 1 ≤ a ∧ a ≤ env.bdrAttrMax) →
        ∃ sh, VoltaSolver.construct pmesh order dbcs dbcv nbcs nbcv epsCoef
          phi_bc rho_src p_src env h = .ok sh) := by
  have hm := markAttributes_spec env.dbcs (List.replicate (arraySetSize env.bdrAttrMax
    (VoltaSolver.constructSpaces pmesh order dbcs dbcv nbcs nbcv epsCoef
      phi_bc rho_src p_src env h).1.ess_bdr_).length 0)
  have hlen : (List.replicate (arraySetSize env.bdrAttrMax
      (VoltaSolver.constructSpaces pmesh order dbcs dbcv nbcs nbcv epsCoef
        phi_bc rho_src p_src env h).1.ess_bdr_).length (0 : Int)).length = env.bdrAttrMax := by
    have : (VoltaSolver.constructSpaces pmesh order dbcs dbcv nbcs nbcv epsCoef
        phi_bc rho_src p_src env h).1.ess_bdr_ = [] := rfl
    rw [this]
    simp [arraySetSize]
  rw [hlen] at hm
  unfold VoltaSolver.construct VoltaSolver.selectDirichlet
  constructor
  · intro f hf
    cases hq : markAttributes env.dbcs (List.replicate (arraySetSize env.bdrAttrMax
        (VoltaSolver.constructSpaces pmesh order dbcs dbcv nbcs nbcv epsCoef
          phi_bc rho_src p_src env h).1.ess_bdr_).length 0) with
    | error g =>
      simp only [hq] at hf
      cases hf
      exact hm.1 _ hq
    | ok m =>
      simp only [hq] at hf
      cases hf
  · intro hr
    obtain ⟨m, hq⟩ := hm.2 hr
    simp only [hq]
    exact ⟨_, rfl⟩

/-- One call of `Assemble`, `Update` or `Solve` on a constructed solver: it
returns, leaving the pointer members as they were, or faults by an array
access out of bounds; it returns when the lists of the caller are in
range. -/
theorem run_step (c : Call) (hc : c.isAssembleUpdateSolve = true)
    (s : VoltaSolver) (h : Heap) (rho_src p_src : ObjPtr) (nbcs : List Int)
    (hcore : s.coreAllocated = true) (hm : s.matched rho_src p_src nbcs = true) :
    ((∃ s1, c.run (s, h) = .ok (s1, h) ∧ s1.coreAllocated = true
        ∧ s1.matched rho_src p_src nbcs = true)
      ∨ c.run (s, h) = .error .outOfBounds)
    ∧ (c.inRange = true →
        ∃ s1, c.run (s, h) = .ok (s1, h) ∧ s1.coreAllocated = true
          ∧ s1.matched rho_src p_src nbcs = true) := by
  cases c with
  | Assemble =>
    have e : Call.run .Assemble (s, h) = .ok (s, h) := by
      simp only [Call.run, Assemble_ok s hcore]; rfl
    exact ⟨Or.inl ⟨s, e, hcore, hm⟩, fun _ => ⟨s, e, hcore, hm⟩⟩
  | Update =>
    have e : Call.run .Update (s, h) = .ok (s, h) := by
      simp only [Call.run, Update_ok s hcore]; rfl
    exact ⟨Or.inl ⟨s, e, hcore, hm⟩, fun _ => ⟨s, e, hcore, hm⟩⟩
  | Solve env =>
    have hs := Solve_spec env s rho_src p_src nbcs hcore hm
    have ok : ∀ t, s.Solve env = .ok { s with ess_bdr_tdofs_ := t } →
        ∃ s1, Call.run (.Solve env) (s, h) = .ok (s1, h) ∧ s1.coreAllocated = true
          ∧ s1.matched rho_src p_src nbcs = true := by
      intro t ht
      refine ⟨{ s with ess_bdr_tdofs_ := t }, ?_, hcore, hm⟩
      simp only [Call.run, ht]; rfl
    refine ⟨?_, fun hin => ?_⟩
    · rcases hs.1 with ⟨t, ht⟩ | he
      · exact Or.inl (ok t ht)
      · right
        simp only [Call.run, he]; rfl
    · obtain ⟨t, ht⟩ := hs.2 hin
      exact ok t ht
  | GetProblemSize => simp [Call.isAssembleUpdateSolve] at hc
  | PrintSizes => simp [Call.isAssembleUpdateSolve] at hc
  | GetErrorEstimates => simp [Call.isAssembleUpdateSolve] at hc
  | RegisterVisItFields dc => simp [Call.isAssembleUpdateSolve] at hc
  | WriteVisItFields => simp [Call.isAssembleUpdateSolve] at hc
  | InitializeGLVis => simp [Call.isAssembleUpdateSolve] at hc
  | DisplayToGLVis => simp [Call.isAssembleUpdateSolve] at hc

/-- A sequence of calls of `Assemble`, `Update` and `Solve` on a constructed
solver. -/
theorem runCalls_spec (calls : List Call)
    (hcalls : ∀ c ∈ calls, c.isAssembleUpdateSolve = true)
    (s : VoltaSolver) (h : Heap) (rho_src p_src : ObjPtr) (nbcs : List Int)
    (hcore : s.coreAllocated = true) (hm : s.matched rho_src p_src nbcs = true) :
    ((∃ s1, runCalls calls (s, h) = .ok (s1, h) ∧ s1.coreAllocated = true
        ∧ s1.matched rho_src p_src nbcs = true)
      ∨ runCalls calls (s, h) = .error .outOfBounds)
    ∧ ((∀ c ∈ calls, c.inRange = true) →
        ∃ s1, runCalls calls (s, h) = .ok (s1, h) ∧ s1.coreAllocated = true
          ∧ s1.matched rho_src p_src nbcs = true) := by
  induction calls generalizing s with
  | nil => exact ⟨Or.inl ⟨s, rfl, hcore, hm⟩, fun _ => ⟨s, rfl, hcore, hm⟩⟩
  | cons c rest ih =>
    have hstep := run_step c (hcalls c (List.mem_cons_self _ _)) s h rho_src p_src nbcs
      hcore hm
    have hrest : ∀ c ∈ rest, c.isAssembleUpdateSolve = true :=
      fun c hc => hcalls c (List.mem_cons_of_mem _ hc)
    refine ⟨?_, fun hin => ?_⟩
    · rcases hstep.1 with ⟨s1, e, hc1, hm1⟩ | e
      · have := (ih hrest s1 hc1 hm1).1
        simp only [runCalls, e]
        exact this
      · right
        simp only [runCalls, e]
    · obtain ⟨s1, e, hc1, hm1⟩ := hstep.2 (hin c (List.mem_cons_self _ _))
      have := (ih hrest s1 hc1 hm1).2 (fun c hc => hin c (List.mem_cons_of_mem _ hc))
      simp only [runCalls, e]
      exact this

/-- C10: after construction and after every further call of `Assemble`,
`Update` and `Solve`, the optional members are allocated in matched groups:
`rho_`, `h1Mass_`, `rhoCoef_` are non-null exactly when `rho_src` was given,
`p_`, `hCurlHDiv_`, `weakDiv_`, `pCoef_` exactly when `p_src` was given,
`sigma_`, `h1SurfMass_` exactly when the Neumann list was non-empty at
construction.  No such run dereferences a null pointer: its only fault is an
array access out of bounds, and with all attribute lists in range the run
returns. -/
theorem VoltaSolver_optional_members_matched
    (pmesh : Nat) (order : Int) (dbcs dbcv nbcs nbcv epsCoef : Nat)
    (phi_bc rho_src p_src : ObjPtr) (env : Caller) (h : Heap) (calls : List Call)
    (hcalls : ∀ c ∈ calls, c.isAssembleUpdateSolve = true) :
    (match constructAndRun pmesh order dbcs dbcv nbcs nbcv epsCoef
        phi_bc rho_src p_src env calls h with
      | .ok sh => sh.1.matched rho_src p_src env.nbcs = true
      | .error f => f = .outOfBounds)
    ∧ ((∀ a ∈ env.dbcs, 1 ≤ a ∧ a ≤ env.bdrAttrMax) →
        (∀ c ∈ calls, c.inRange = true) →
        ∃ sh, constructAndRun pmesh order dbcs dbcv nbcs nbcv epsCoef
          phi_bc rho_src p_src env calls h = .ok sh
          ∧ sh.1.matched rho_src p_src env.nbcs = true) := by
  have hret := construct_returns pmesh order dbcs dbcv nbcs nbcv epsCoef
    phi_bc rho_src p_src env h
  unfold constructAndRun
  cases hq : VoltaSolver.construct pmesh order dbcs dbcv nbcs nbcv epsCoef
      phi_bc rho_src p_src env h with
  | error f =>
    refine ⟨hret.1 f hq, fun hr _ => ?_⟩
    obtain ⟨sh, hsh⟩ := hret.2 hr
    rw [hq] at hsh
    cases hsh
  | ok sh =>
    obtain ⟨s0, h0⟩ := sh
    obtain ⟨hcore, hm⟩ := construct_spec pmesh order dbcs dbcv nbcs nbcv epsCoef
      phi_bc rho_src p_src env h s0 h0 hq
    have hrun := runCalls_spec calls hcalls s0 h0 rho_src p_src env.nbcs hcore hm
    refine ⟨?_, fun _ hin => ?_⟩
    · rcases hrun.1 with ⟨s1, e, _, hm1⟩ | e
      · simp only [e]; exact hm1
      · simp only [e]
    · obtain ⟨s1, e, _, hm1⟩ := hrun.2 hin
      exact ⟨(s1, h0), e, hm1⟩

/-- Witness of C10: a solver with a `rho_src` function and one Neumann
attribute, then `Assemble`, `Solve`, `Update`, `Solve`. -/
theorem VoltaSolver_optional_members_matched_witness :
    (match constructAndRun 1 2 3 4 5 6 7 none (some 50) none sampleCaller
        [.Assemble, .Solve sampleCaller, .Update, .Solve sampleCaller] sampleHeap with
      | .ok sh => sh.1.matched (some 50) none sampleCaller.nbcs = true
      | .error f => f = .outOfBounds)
    ∧ ((∀ a ∈ sampleCaller.dbcs, 1 ≤ a ∧ a ≤ sampleCaller.bdrAttrMax) →
        (∀ c ∈ [Call.Assemble, .Solve sampleCaller, .Update, .Solve sampleCaller],
          c.inRange = true) →
        ∃ sh, constructAndRun 1 2 3 4 5 6 7 none (some 50) none sampleCaller
          [.Assemble, .Solve sampleCaller, .Update, .Solve sampleCaller] sampleHeap = .ok sh
          ∧ sh.1.matched (some 50) none sampleCaller.nbcs = true) :=
  VoltaSolver_optional_members_matched 1 2 3 4 5 6 7 none (some 50) none sampleCaller
    sampleHeap [.Assemble, .Solve sampleCaller, .Update, .Solve sampleCaller]
    (by
      intro c hc
      simp only [List.mem_cons, List.mem_singleton, List.not_mem_nil, or_false] at hc
      rcases hc with rfl | rfl | rfl | rfl <;> rfl)

/-- The Dirichlet loop, when it ends normally, keeps the size of the marker
and sets to 1 exactly the entries `k` whose attribute `k + 1` is in the list;
the other entries keep their value. -/
theorem markAttributes_marks (attrs : List Int) (marker m : List Int)
    (h : markAttributes attrs marker = .ok m) :
    m.length = marker.length
    ∧ ∀ k : Nat, m[k]? = if ((k : Int) + 1) ∈ attrs then some 1 else marker[k]? := by
  induction attrs generalizing marker with
  | nil =>
    cases h
    exact ⟨rfl, fun k => by simp⟩
  | cons a rest ih =>
    unfold markAttributes at h
    by_cases ha : 0 ≤ a - 1 ∧ a - 1 < (marker.length : Int)
    · have e : arrayAssign marker (a - 1) 1 = .ok (marker.set (a - 1).toNat 1) := by
        simp only [arrayAssign, ha, and_self, if_true]
      rw [e] at h
      obtain ⟨hlen, hval⟩ := ih _ h
      refine ⟨by rw [hlen, List.length_set], fun k => ?_⟩
      rw [hval k, List.getElem?_set]
      have hlt : (a - 1).toNat < marker.length := by omega
      by_cases hk : ((k : Int) + 1) ∈ rest
      · simp only [hk, if_true, List.mem_cons, or_true]
      · by_cases hka : (a - 1).toNat = k
        · have : (k : Int) + 1 = a := by omega
          simp only [hk, if_false, hka, if_true, List.mem_cons, this, true_or]
          rw [← hka]
          simp only [hlt, if_true, ite_self]
        · have : ¬ ((k : Int) + 1 = a) := by omega
          simp only [hk, if_false, hka, List.mem_cons, this, or_self]
    · have e : arrayAssign marker (a - 1) 1 = .error .outOfBounds := by
        simp only [arrayAssign, ha, if_false]
      rw [e] at h
      cases h

/-- The Dirichlet loop of the constructor: the marker it stores. -/
theorem selectDirichlet_marker (env : Caller) (s s1 : VoltaSolver)
    (h : VoltaSolver.selectDirichlet env s = .ok s1) :
    ∃ marker,
      markAttributes env.dbcs
        (List.replicate (arraySetSize env.bdrAttrMax s.ess_bdr_).length 0) = .ok marker
      ∧ s1 = { s with ess_bdr_ := marker } := by
  unfold VoltaSolver.selectDirichlet at h
  split at h
  · cases h
  · rename_i marker hm
    exact ⟨marker, hm, by cases h; rfl⟩

/-- The constructor, when it returns, has stored the rank of the process, an
empty list of essential true degrees of freedom, and the marker made by the
Dirichlet loop from `bdr_attributes.Max()` zeros. -/
theorem construct_fields (pmesh : Nat) (order : Int) (dbcs dbcv nbcs nbcv epsCoef : Nat)
    (phi_bc rho_src p_src : ObjPtr) (env : Caller) (h : Heap)
    (s0 : VoltaSolver) (h0 : Heap)
    (hc : VoltaSolver.construct pmesh order dbcs dbcv nbcs nbcv epsCoef
      phi_bc rho_src p_src env h = .ok (s0, h0)) :
    s0.myid_ = env.rank ∧ s0.ess_bdr_tdofs_ = []
    ∧ ∃ marker,
        markAttributes env.dbcs (List.replicate env.bdrAttrMax 0) = .ok marker
        ∧ s0.ess_bdr_ = marker := by
  unfold VoltaSolver.construct at hc
  cases hsel : VoltaSolver.selectDirichlet env
      (VoltaSolver.constructSpaces pmesh order dbcs dbcv nbcs nbcv epsCoef
        phi_bc rho_src p_src env h).1 with
  | error f =>
    simp only [hsel] at hc
    cases hc
  | ok s1 =>
    simp only [hsel, Except.ok.injEq] at hc
    obtain ⟨marker, hm, rfl⟩ := selectDirichlet_marker _ _ _ hsel
    have hlen : (arraySetSize env.bdrAttrMax
        (VoltaSolver.constructSpaces pmesh order dbcs dbcv nbcs nbcv epsCoef
          phi_bc rho_src p_src env h).1.ess_bdr_).length = env.bdrAttrMax := by
      have : (VoltaSolver.constructSpaces pmesh order dbcs dbcv nbcs nbcv epsCoef
          phi_bc rho_src p_src env h).1.ess_bdr_ = [] := rfl
      rw [this]
      simp [arraySetSize]
    rw [hlen] at hm
    have h1 := congrArg Prod.fst hc
    simp only at h1
    subst h1
    refine ⟨?_, ?_, marker, hm, ?_⟩
    all_goals
      unfold VoltaSolver.constructOptional
      by_cases hl : env.nbcs.length > 0
      · simp only [if_pos hl]
        cases phi_bc <;> cases rho_src <;> cases p_src <;> rfl
      · simp only [if_neg hl]
        cases phi_bc <;> cases rho_src <;> cases p_src <;> rfl

/-- C11: a solver constructed on a mesh whose largest boundary attribute is
`M`, with a Dirichlet list whose entries all lie in `1 .. M`: the
constructor returns, `ess_bdr_` has `M` entries, and its entry `k` is 1 when
the attribute `k + 1` occurs in the list and 0 otherwise.  The entries
depend only on which attributes occur, so duplicates change nothing, and an
empty list gives `M` zeros. -/
theorem VoltaSolver_ess_bdr_marks_dirichlet
    (pmesh : Nat) (order : Int) (dbcs dbcv nbcs nbcv epsCoef : Nat)
    (phi_bc rho_src p_src : ObjPtr) (env : Caller) (h : Heap)
    (hr : ∀ a ∈ env.dbcs, 1 ≤ a ∧ a ≤ env.bdrAttrMax) :
    ∃ (s0 : VoltaSolver) (h0 : Heap),
      VoltaSolver.construct pmesh order dbcs dbcv nbcs nbcv epsCoef
        phi_bc rho_src p_src env h = .ok (s0, h0)
      ∧ s0.ess_bdr_.length = env.bdrAttrMax
      ∧ (∀ k : Nat, k < env.bdrAttrMax →
          s0.ess_bdr_[k]? = some (if ((k : Int) + 1) ∈ env.dbcs then 1 else 0))
      ∧ (env.dbcs = [] → s0.ess_bdr_ = List.replicate env.bdrAttrMax 0) := by
  obtain ⟨⟨s0, h0⟩, hc⟩ := (construct_returns pmesh order dbcs dbcv nbcs nbcv epsCoef
    phi_bc rho_src p_src env h).2 hr
  obtain ⟨_, _, marker, hm, hs⟩ := construct_fields pmesh order dbcs dbcv nbcs nbcv
    epsCoef phi_bc rho_src p_src env h s0 h0 hc
  obtain ⟨hlen, hval⟩ := markAttributes_marks _ _ _ hm
  refine ⟨s0, h0, hc, ?_, ?_, ?_⟩
  · rw [hs, hlen, List.length_replicate]
  · intro k hk
    rw [hs, hval k, List.getElem?_replicate]
    by_cases hmem : ((k : Int) + 1) ∈ env.dbcs
    · simp only [hmem, if_true]
    · simp only [hmem, if_false, hk, if_true]
  · intro he
    rw [he] at hm
    cases hm
    exact hs

/-- Witness of C11: boundary attributes up to 4 and the Dirichlet list
`[1, 3]` of the sample caller. -/
theorem VoltaSolver_ess_bdr_marks_dirichlet_witness :
    ∃ (s0 : VoltaSolver) (h0 : Heap),
      VoltaSolver.construct 1 2 3 4 5 6 7 none (some 50) none sampleCaller sampleHeap
        = .ok (s0, h0)
      ∧ s0.ess_bdr_.length = sampleCaller.bdrAttrMax
      ∧ (∀ k : Nat, k < sampleCaller.bdrAttrMax →
          s0.ess_bdr_[k]? = some (if ((k : Int) + 1) ∈ sampleCaller.dbcs then 1 else 0))
      ∧ (sampleCaller.dbcs = [] → s0.ess_bdr_ = List.replicate sampleCaller.bdrAttrMax 0) :=
  VoltaSolver_ess_bdr_marks_dirichlet 1 2 3 4 5 6 7 none (some 50) none sampleCaller
    sampleHeap (by decide)

/-- Lines 346-360 of `Solve` with an empty Dirichlet list: on rank 0 the list
of essential true degrees of freedom becomes `[0]`, on another rank it is
left as it is. -/
theorem essentialTrueDofs_empty (env : Caller) (s : VoltaSolver)
    (hd : s.dbcs_.isSome = true) (he : env.dbcs = []) :
    s.essentialTrueDofs env
      = .ok (if s.myid_ = 0 then [0] else s.ess_bdr_tdofs_) := by
  unfold VoltaSolver.essentialTrueDofs
  have hl : ¬ (env.dbcs.length > 0) := by rw [he]; simp
  simp only [deref_of_isSome _ hd, hl, if_false]
  by_cases hz : s.myid_ = 0
  · have hs : arrayAssign (arraySetSize 1 s.ess_bdr_tdofs_) 0 0 = .ok [0] := by
      cases s.ess_bdr_tdofs_ with
      | nil => rfl
      | cons a l =>
        simp [arrayAssign, arraySetSize]
    simp only [hz, if_true, hs]
    rfl
  · simp only [hz, if_false]
    rfl

/-- `Solve` on a constructed solver whose steps end normally stores the list
of the step of lines 346-360 and changes nothing else. -/
theorem Solve_of_steps (env : Caller) (s : VoltaSolver) (rho_src p_src : ObjPtr)
    (nbcs : List Int) (hcore : s.coreAllocated = true)
    (hm : s.matched rho_src p_src nbcs = true) (t : List Int)
    (h1 : s.applyDirichlet env = .ok ()) (h2 : s.addSources env = .ok ())
    (h3 : s.essentialTrueDofs env = .ok t) :
    s.Solve env = .ok { s with ess_bdr_tdofs_ := t } := by
  have hs := solveSystems_ok { s with ess_bdr_tdofs_ := t } rho_src p_src nbcs hcore hm
  have hphi : deref s.phi_ = .ok () :=
    deref_of_isSome _ ((coreAllocated_iff s).mp hcore).2.2.2.2.2.2.2.2.2.2.2.2.2.1
  have hrhod : deref s.rhod_ = .ok () :=
    deref_of_isSome _ ((coreAllocated_iff s).mp hcore).2.2.2.2.2.2.2.2.2.2.2.2.2.2.1
  unfold VoltaSolver.Solve
  rw [hphi, hrhod, h1, h2, h3]
  show (do
    VoltaSolver.solveSystems { s with ess_bdr_tdofs_ := t }
    pure { s with ess_bdr_tdofs_ := t }) = _
  rw [hs]
  rfl

/-- One call of `Assemble`, `Update` or `Solve` on a constructed solver
changes no member other than `ess_bdr_tdofs_`, and not the free store. -/
theorem run_step_frame (c : Call) (hc : c.isAssembleUpdateSolve = true)
    (s : VoltaSolver) (h : Heap) (rho_src p_src : ObjPtr) (nbcs : List Int)
    (hcore : s.coreAllocated = true) (hm : s.matched rho_src p_src nbcs = true)
    (s1 : VoltaSolver) (h1 : Heap) (hrun : c.run (s, h) = .ok (s1, h1)) :
    (∃ t, s1 = { s with ess_bdr_tdofs_ := t }) ∧ h1 = h := by
  cases c with
  | Assemble =>
    have e : Call.run .Assemble (s, h) = .ok (s, h) := by
      simp only [Call.run, Assemble_ok s hcore]; rfl
    rw [e] at hrun
    cases hrun
    exact ⟨⟨s.ess_bdr_tdofs_, rfl⟩, rfl⟩
  | Update =>
    have e : Call.run .Update (s, h) = .ok (s, h) := by
      simp only [Call.run, Update_ok s hcore]; rfl
    rw [e] at hrun
    cases hrun
    exact ⟨⟨s.ess_bdr_tdofs_, rfl⟩, rfl⟩
  | Solve env =>
    rcases (Solve_spec env s rho_src p_src nbcs hcore hm).1 with ⟨t, ht⟩ | he
    · have e : Call.run (.Solve env) (s, h) = .ok ({ s with ess_bdr_tdofs_ := t }, h) := by
        simp only [Call.run, ht]; rfl
      rw [e] at hrun
      cases hrun
      exact ⟨⟨t, rfl⟩, rfl⟩
    · have e : Call.run (.Solve env) (s, h) = .error .outOfBounds := by
        simp only [Call.run, he]; rfl
      rw [e] at hrun
      cases hrun
  | GetProblemSize => simp [Call.isAssembleUpdateSolve] at hc
  | PrintSizes => simp [Call.isAssembleUpdateSolve] at hc
  | GetErrorEstimates => simp [Call.isAssembleUpdateSolve] at hc
  | RegisterVisItFields dc => simp [Call.isAssembleUpdateSolve] at hc
  | WriteVisItFields => simp [Call.isAssembleUpdateSolve] at hc
  | InitializeGLVis => simp [Call.isAssembleUpdateSolve] at hc
  | DisplayToGLVis => simp [Call.isAssembleUpdateSolve] at hc

/-- A sequence of calls of `Assemble`, `Update` and `Solve` on a constructed
solver changes no member other than `ess_bdr_tdofs_`, and leaves that one
as it is when the sequence is empty. -/
theorem runCalls_frame (calls : List Call)
    (hcalls : ∀ c ∈ calls, c.isAssembleUpdateSolve = true)
    (s : VoltaSolver) (h : Heap) (rho_src p_src : ObjPtr) (nbcs : List Int)
    (hcore : s.coreAllocated = true) (hm : s.matched rho_src p_src nbcs = true)
    (s1 : VoltaSolver) (h1 : Heap) (hrun : runCalls calls (s, h) = .ok (s1, h1)) :
    (∃ t, s1 = { s with ess_bdr_tdofs_ := t }) ∧ (calls = [] → s1 = s) := by
  induction calls generalizing s with
  | nil =>
    have e : s1 = s := by cases hrun; rfl
    refine ⟨⟨s.ess_bdr_tdofs_, ?_⟩, fun _ => e⟩
    rw [e]
  | cons c rest ih =>
    refine ⟨?_, fun hnil => by cases hnil⟩
    unfold runCalls at hrun
    cases hq : c.run (s, h) with
    | error f =>
      rw [hq] at hrun
      cases hrun
    | ok sh =>
      obtain ⟨s2, h2⟩ := sh
      rw [hq] at hrun
      obtain ⟨⟨t, rfl⟩, rfl⟩ := run_step_frame c (hcalls c (List.mem_cons_self _ _)) s h
        rho_src p_src nbcs hcore hm s2 h2 hq
      obtain ⟨⟨t2, ht2⟩, _⟩ := ih (fun c hc => hcalls c (List.mem_cons_of_mem _ hc))
        { s with ess_bdr_tdofs_ := t } hcore hm hrun
      exact ⟨t2, ht2⟩

/-- C12: a solver constructed on the rank `env0.rank`, after any calls of
`Assemble`, `Update` and `Solve`, then `Solve` at a time when the Dirichlet
list of the caller is empty: the step of lines 346-360 and `Solve` both end
normally; on rank 0 `ess_bdr_tdofs_` becomes exactly `[0]`, on every other
rank it stays as it was, and no other member changes.  On a freshly
constructed solver the list was empty. -/
theorem VoltaSolver_Solve_pins_first_dof
    (pmesh : Nat) (order : Int) (dbcs dbcv nbcs nbcv epsCoef : Nat)
    (phi_bc rho_src p_src : ObjPtr) (env0 : Caller) (h : Heap) (calls : List Call)
    (envS : Caller)
    (hr : ∀ a ∈ env0.dbcs, 1 ≤ a ∧ a ≤ env0.bdrAttrMax)
    (hcalls : ∀ c ∈ calls, c.isAssembleUpdateSolve = true)
    (hin : ∀ c ∈ calls, c.inRange = true)
    (hempty : envS.dbcs = []) (hinS : envS.inRange = true) :
    ∃ (s : VoltaSolver) (h1 : Heap),
      constructAndRun pmesh order dbcs dbcv nbcs nbcv epsCoef
        phi_bc rho_src p_src env0 calls h = .ok (s, h1)
      ∧ s.myid_ = env0.rank
      ∧ s.essentialTrueDofs envS
          = .ok (if env0.rank = 0 then [0] else s.ess_bdr_tdofs_)
      ∧ s.Solve envS
          = .ok { s with ess_bdr_tdofs_ := if env0.rank = 0 then [0] else s.ess_bdr_tdofs_ }
      ∧ (calls = [] → s.ess_bdr_tdofs_ = []) := by
  obtain ⟨⟨s0, h0⟩, hc⟩ := (construct_returns pmesh order dbcs dbcv nbcs nbcv epsCoef
    phi_bc rho_src p_src env0 h).2 hr
  obtain ⟨hcore, hm⟩ := construct_spec pmesh order dbcs dbcv nbcs nbcv epsCoef
    phi_bc rho_src p_src env0 h s0 h0 hc
  obtain ⟨hid, htd, _⟩ := construct_fields pmesh order dbcs dbcv nbcs nbcv epsCoef
    phi_bc rho_src p_src env0 h s0 h0 hc
  obtain ⟨s, hrun, hcore1, hm1⟩ :=
    (runCalls_spec calls hcalls s0 h0 rho_src p_src env0.nbcs hcore hm).2 hin
  obtain ⟨⟨t, hst⟩, hnil⟩ := runCalls_frame calls hcalls s0 h0 rho_src p_src env0.nbcs
    hcore hm s h0 hrun
  have hmy : s.myid_ = env0.rank := by rw [hst]; exact hid
  have hd : s.dbcs_.isSome = true := ((coreAllocated_iff s).mp hcore1).2.1
  have hstep := essentialTrueDofs_empty envS s hd hempty
  rw [hmy] at hstep
  have hinS' := hinS
  simp only [Caller.inRange, Bool.and_eq_true] at hinS'
  have hsolve := Solve_of_steps envS s rho_src p_src env0.nbcs hcore1 hm1 _
    ((applyDirichlet_spec envS s hcore1).2 hinS'.1)
    ((addSources_spec envS s rho_src p_src env0.nbcs hcore1 hm1).2 hinS'.2) hstep
  refine ⟨s, h0, ?_, hmy, hstep, hsolve, fun hn => ?_⟩
  · unfold constructAndRun
    rw [hc]
    exact hrun
  · rw [hnil hn]; exact htd

/-- Witness of C12: a freshly constructed solver on rank 0 of a caller without
Dirichlet attributes. -/
theorem VoltaSolver_Solve_pins_first_dof_witness :
    ∃ (s : VoltaSolver) (h1 : Heap),
      constructAndRun 1 2 3 4 5 6 7 none (some 50) none sampleCallerNoDirichlet []
        sampleHeap = .ok (s, h1)
      ∧ s.myid_ = sampleCallerNoDirichlet.rank
      ∧ s.essentialTrueDofs sampleCallerNoDirichlet
          = .ok (if sampleCallerNoDirichlet.rank = 0 then [0] else s.ess_bdr_tdofs_)
      ∧ s.Solve sampleCallerNoDirichlet
          = .ok { s with ess_bdr_tdofs_ :=
              if sampleCallerNoDirichlet.rank = 0 then [0] else s.ess_bdr_tdofs_ }
      ∧ (([] : List Call) = [] → s.ess_bdr_tdofs_ = []) :=
  VoltaSolver_Solve_pins_first_dof 1 2 3 4 5 6 7 none (some 50) none
    sampleCallerNoDirichlet sampleHeap [] sampleCallerNoDirichlet
    (by decide) (fun _ hc => absurd hc (List.not_mem_nil _))
    (fun _ hc => absurd hc (List.not_mem_nil _)) rfl rfl
